import Mathlib

/-!
Verification development for the Argus backend proposal pipeline.

The JavaScript sources under `src/backend` are shallowly embedded here:
strings are `List Char`, the mutable module-level maps (`STORE`,
`proposals`, `idempotencyCache`, the lock table) are explicit state
records threaded through the functions, promises/async are collapsed to
direct state passing, wall-clock time is an explicit `now : Nat`
parameter, and thrown `Error`s become `Except` values carrying the
error message.  Remote Proxmox calls are an oracle indexed by the
global call count, so the embedding also records the trace of remote
calls actually issued.
-/

namespace Argus

/-- JavaScript strings are embedded as lists of characters. -/
abbrev Text := List Char

/-- `isStart pat t` : `pat` is a leading segment of `t` (like `t.startsWith(pat)`). -/
def isStart : Text → Text → Bool
  | [], _ => true
  | _ :: _, [] => false
  | p :: ps, c :: cs => p = c && isStart ps cs

/-- `hasSub t pat` : `pat` occurs contiguously somewhere in `t` (like `t.includes(pat)`). -/
def hasSub : Text → Text → Bool
  | t, pat =>
    match t with
    | [] => isStart pat []
    | _ :: rest => isStart pat t || hasSub rest pat

/-- Length of the longest leading run of characters satisfying `p`. -/
def spanLen (p : Char → Bool) : Text → Nat
  | [] => 0
  | c :: rest => if p c then spanLen p rest + 1 else 0

/-- ASCII lower-casing of one character, mirroring `toLowerCase` on ASCII input. -/
def lowerC (c : Char) : Char :=
  if 'A' ≤ c ∧ c ≤ 'Z' then Char.ofNat (c.toNat + 32) else c

/-- ASCII lower-casing of a character list. -/
def lowerT (t : Text) : Text := t.map lowerC

/-- ASCII lower-casing of a Lean `String` (used for the decision field). -/
def lowerS (s : String) : String := String.mk (lowerT s.toList)

/-- Case-insensitive character equality (ASCII). -/
def ciEq (a b : Char) : Bool := lowerC a = lowerC b

/-- `startsCi pat t` : `pat` is a case-insensitive leading segment of `t`. -/
def startsCi : Text → Text → Bool
  | [], _ => true
  | _ :: _, [] => false
  | p :: ps, c :: cs => ciEq p c && startsCi ps cs

/-- Decimal digit test, the regex class `\d`. -/
def isDigitC (c : Char) : Bool := '0' ≤ c && c ≤ '9'

/-- Lower-case ASCII letter test. -/
def isLowerC (c : Char) : Bool := 'a' ≤ c && c ≤ 'z'

/-- Upper-case ASCII letter test. -/
def isUpperC (c : Char) : Bool := 'A' ≤ c && c ≤ 'Z'

/-- ASCII letter test, the regex class `[A-Za-z]`. -/
def isAlphaC (c : Char) : Bool := isLowerC c || isUpperC c

/-- Alphanumeric test, the regex class `[A-Za-z0-9]`. -/
def isAlnumC (c : Char) : Bool := isAlphaC c || isDigitC c

/-- Hex digit test, the regex class `[0-9a-fA-F]`. -/
def isHexC (c : Char) : Bool :=
  isDigitC c || ('a' ≤ c && c ≤ 'f') || ('A' ≤ c && c ≤ 'F')

/-- Word character for `\b` boundaries: `[A-Za-z0-9_]`. -/
def isWordC (c : Char) : Bool := isAlnumC c || c = '_'

/-- Whitespace for the regex class `\s` (ASCII subset). -/
def isSpaceC (c : Char) : Bool :=
  c = ' ' || c = '\t' || c = '\n' || c = '\r' ||
  c = Char.ofNat 11 || c = Char.ofNat 12

/-- Characters of the bearer/api token classes `[A-Za-z0-9._-]`. -/
def isTokC (c : Char) : Bool := isAlnumC c || c = '.' || c = '_' || c = '-'

/-- Characters of the e-mail local part class `[A-Za-z0-9._%+-]`. -/
def isLocalC (c : Char) : Bool :=
  isAlnumC c || c = '.' || c = '_' || c = '%' || c = '+' || c = '-'

/-- Characters of the e-mail domain class `[A-Za-z0-9.-]`. -/
def isDomC (c : Char) : Bool := isAlnumC c || c = '.' || c = '-'

/-- Stop characters of the password value class: the class is `[^'"\s,}]+`. -/
def isPwStopC (c : Char) : Bool :=
  c = '\'' || c = '"' || isSpaceC c || c = ',' || c = '\x7d'

/--
A pattern matcher at one position of the text: `before` is the reversed
prefix of the *original* text to the left of the position (for
lookbehind and `\b`), the second argument the remaining text.  Returns
the match length when the regex matches starting exactly here.
-/
abbrev Matcher := Text → Text → Option Nat

/-- Matcher for `sk-[A-Za-z0-9]{20,}` (sanitize.js line 10). -/
def skMatch : Matcher := fun _ after =>
  match after with
  | 's' :: 'k' :: '-' :: rest =>
    let n := spanLen isAlnumC rest
    if 20 ≤ n then some (3 + n) else none
  | _ => none

/-- Lookbehind of `(?<=Bearer\s+)` read right-to-left on the reversed prefix. -/
def bearerBehind (before : Text) : Bool :=
  let k := spanLen isSpaceC before
  1 ≤ k && startsCi ('r' :: 'e' :: 'r' :: 'a' :: 'e' :: 'B' :: []) (before.drop k)

/-- Matcher for `(?<=Bearer\s+)[A-Za-z0-9._-]{10,}` with the `i` flag (sanitize.js line 11). -/
def bearerMatch : Matcher := fun before after =>
  if bearerBehind before then
    let n := spanLen isTokC after
    if 10 ≤ n then some n else none
  else none

/-- `\b` test on the reversed left context: start of text or a non-word character. -/
def boundL (before : Text) : Bool :=
  match before with
  | [] => true
  | c :: _ => !isWordC c

/-- `\b` test on the right: end of text or a non-word character. -/
def boundR (t : Text) : Bool :=
  match t with
  | [] => true
  | c :: _ => !isWordC c

/-- Keywords of the api-token lookbehind alternation, reversed. -/
def apiKwsRev : List Text :=
  [('i' :: 'p' :: 'a' :: []),
   ('t' :: 'e' :: 'r' :: 'c' :: 'e' :: 's' :: []),
   ('s' :: 's' :: 'e' :: 'c' :: 'c' :: 'a' :: []),
   ('h' :: 's' :: 'e' :: 'r' :: 'f' :: 'e' :: 'r' :: []),
   ('n' :: 'o' :: 'i' :: 's' :: 's' :: 'e' :: 's' :: [])]

/-- Keywords of the password lookbehind alternation, reversed. -/
def pwKwsRev : List Text :=
  [('d' :: 'r' :: 'o' :: 'w' :: 's' :: 's' :: 'a' :: 'p' :: []),
   ('e' :: 's' :: 'a' :: 'r' :: 'h' :: 'p' :: 's' :: 's' :: 'a' :: 'p' :: []),
   ('t' :: 'e' :: 'r' :: 'c' :: 'e' :: 's' :: [])]

/-- Check one reversed keyword (case-insensitively) followed by a `\b` on its left. -/
def kwBehind (kwRev : Text) (b : Text) : Bool :=
  startsCi kwRev b && boundL (b.drop kwRev.length)

/--
Shared core of the `(?<=\b KW \s*[:=]\s*['"]?)` lookbehinds, reading the
reversed prefix after the optional quote has been handled: `\s*`, one of
`:`/`=`, `\s*`, then one keyword from `kwsRev`, then `\b`.
-/
def kvBehindCore (kwsRev : List Text) (tokenPart : Bool) (b : Text) : Bool :=
  let b1 := b.drop (spanLen isSpaceC b)
  match b1 with
  | c :: r =>
    (c = ':' || c = '=') &&
    (let r1 := r.drop (spanLen isSpaceC r)
     if tokenPart then
       -- `(?:api|...|session)_?token` reversed: `nekot`, optional `_`, keyword
       startsCi ('n' :: 'e' :: 'k' :: 'o' :: 't' :: []) r1 &&
       (let r2 := r1.drop 5
        kwsRev.any (fun kw => kwBehind kw r2) ||
        (match r2 with
         | '_' :: r3 => kwsRev.any (fun kw => kwBehind kw r3)
         | _ => false))
     else
       kwsRev.any (fun kw => kwBehind kw r1))
  | [] => false

/-- Full key-value lookbehind, trying the optional closing quote both ways. -/
def kvBehind (kwsRev : List Text) (tokenPart : Bool) (b : Text) : Bool :=
  (match b with
   | c :: r => (c = '\'' || c = '"') && kvBehindCore kwsRev tokenPart r
   | [] => false) ||
  kvBehindCore kwsRev tokenPart b

/-- Matcher for the api/secret/…`_?token` pattern (sanitize.js line 12). -/
def apiTokenMatch : Matcher := fun before after =>
  if kvBehind apiKwsRev true before then
    let n := spanLen isTokC after
    if 8 ≤ n then some n else none
  else none

/-- Matcher for the password/passphrase/secret pattern (sanitize.js line 13). -/
def passwordMatch : Matcher := fun before after =>
  if kvBehind pwKwsRev false before then
    let n := spanLen (fun c => !isPwStopC c) after
    if 1 ≤ n then some n else none
  else none

/-- Backtracking tail of the e-mail matcher: try the largest split point
`j` of the domain run where a literal `.` is followed by at least two
letters (the greedy `+` backtracks from the right). -/
def emailTail (r2 : Text) : Nat → Option Nat
  | 0 => none
  | j + 1 =>
    if r2.get? (j + 1) = some '.' then
      let letters := spanLen isAlphaC (r2.drop (j + 2))
      if 2 ≤ letters then some (j + 1 + 1 + letters) else emailTail r2 j
    else emailTail r2 j

/-- Matcher for the e-mail pattern (sanitize.js line 14). -/
def emailMatch : Matcher := fun _ after =>
  let l := spanLen isLocalC after
  if l = 0 then none
  else
    match after.drop l with
    | '@' :: r2 =>
      let d := spanLen isDomC r2
      match d with
      | 0 => none
      | dm + 1 => (emailTail r2 dm).map (fun k => l + 1 + k)
    | _ => none

/-- One IPv4 group `\d{1,3}` followed by a literal dot. -/
def ip4Group (t : Text) : Option Text :=
  let r := spanLen isDigitC t
  if 1 ≤ r ∧ r ≤ 3 then
    match t.drop r with
    | '.' :: rest => some rest
    | _ => none
  else none

/-- Matcher for `\b(?:\d{1,3}\.){3}\d{1,3}\b` (sanitize.js line 15). -/
def ip4Match : Matcher := fun before after =>
  if boundL before then
    match ip4Group after with
    | none => none
    | some t1 =>
      match ip4Group t1 with
      | none => none
      | some t2 =>
        match ip4Group t2 with
        | none => none
        | some t3 =>
          let r := spanLen isDigitC t3
          if 1 ≤ r ∧ r ≤ 3 ∧ boundR (t3.drop r) then
            some (after.length - (t3.length - r))
          else none
  else none

/-- One IPv6 group `[A-F0-9]{1,4}:` (the `i` flag admits lower-case hex). -/
def hexGroup (t : Text) : Option (Nat × Text) :=
  let r := spanLen isHexC t
  if 1 ≤ r ∧ r ≤ 4 then
    match t.drop r with
    | ':' :: rest => some (r + 1, rest)
    | _ => none
  else none

/-- Final IPv6 element `[A-F0-9]{1,4}` followed by `\b`. -/
def ip6Final (t : Text) : Option Nat :=
  let m := spanLen isHexC t
  if 1 ≤ m ∧ m ≤ 4 ∧ boundR (t.drop m) then some m else none

/-- Greedy-with-backtracking group consumption for IPv6: prefer another
`hex:` group (up to 7 total) and fall back to the final element. -/
def ip6More : Nat → Text → Option Nat
  | 0, t => ip6Final t
  | fuel + 1, t =>
    match hexGroup t with
    | some (len, rest) =>
      match ip6More fuel rest with
      | some k => some (len + k)
      | none => ip6Final t
    | none => ip6Final t

/-- Matcher for `\b(?:[A-F0-9]{1,4}:){1,7}[A-F0-9]{1,4}\b` with `i` (sanitize.js line 16). -/
def ip6Match : Matcher := fun before after =>
  if boundL before then
    match hexGroup after with
    | some (len, rest) => (ip6More 6 rest).map (len + ·)
    | none => none
  else none

/-- Consume exactly `n` characters satisfying `p`. -/
def takeExact (p : Char → Bool) : Nat → Text → Option Text
  | 0, t => some t
  | n + 1, c :: rest => if p c then takeExact p n rest else none
  | _ + 1, [] => none

/-- Consume one expected character. -/
def takeCh (ch : Char) : Text → Option Text
  | c :: rest => if c = ch then some rest else none
  | [] => none

/-- Consume one character from the class `[1-5]`. -/
def takeOneToFive : Text → Option Text
  | c :: rest => if '1' ≤ c && c ≤ '5' then some rest else none
  | [] => none

/-- Consume one character from the class `[89abAB]`. -/
def takeVariantCh : Text → Option Text
  | c :: rest =>
    if c = '8' || c = '9' || c = 'a' || c = 'b' || c = 'A' || c = 'B' then some rest
    else none
  | [] => none

/-- Matcher for the UUID pattern (sanitize.js line 17). -/
def uuidMatch : Matcher := fun before after =>
  if boundL before then
    match takeExact isHexC 8 after with
    | none => none
    | some t1 =>
      match takeCh '-' t1 with
      | none => none
      | some t2 =>
        match takeExact isHexC 4 t2 with
        | none => none
        | some t3 =>
          match takeCh '-' t3 with
          | none => none
          | some t4 =>
            match takeOneToFive t4 with
            | none => none
            | some t5 =>
              match takeExact isHexC 3 t5 with
              | none => none
              | some t6 =>
                match takeCh '-' t6 with
                | none => none
                | some t7 =>
                  match takeVariantCh t7 with
                  | none => none
                  | some t8 =>
                    match takeExact isHexC 3 t8 with
                    | none => none
                    | some t9 =>
                      match takeCh '-' t9 with
                      | none => none
                      | some t10 =>
                        match takeExact isHexC 12 t10 with
                        | none => none
                        | some t11 =>
                          if boundR t11 then some (after.length - t11.length)
                          else none
  else none

/-- One MAC group: two hex digits followed by `:` or `-`. -/
def macGroup (t : Text) : Option Text :=
  match takeExact isHexC 2 t with
  | none => none
  | some t1 =>
    match t1 with
    | c :: rest => if c = ':' || c = '-' then some rest else none
    | [] => none

/-- Matcher for `\b(?:[0-9A-Fa-f]{2}[:-]){5}[0-9A-Fa-f]{2}\b` (sanitize.js line 18). -/
def macMatch : Matcher := fun before after =>
  if boundL before then
    match macGroup after with
    | none => none
    | some t1 =>
      match macGroup t1 with
      | none => none
      | some t2 =>
        match macGroup t2 with
        | none => none
        | some t3 =>
          match macGroup t3 with
          | none => none
          | some t4 =>
            match macGroup t4 with
            | none => none
            | some t5 =>
              match takeExact isHexC 2 t5 with
              | none => none
              | some t6 =>
                if boundR t6 then some (after.length - t6.length) else none
  else none

/-- The ordered `PATTERNS` table of sanitize.js lines 9–19: category and matcher. -/
def PATTERNS : List (String × Matcher) :=
  [("TOKEN", skMatch), ("TOKEN", bearerMatch), ("TOKEN", apiTokenMatch),
   ("PASSWORD", passwordMatch), ("EMAIL", emailMatch),
   ("IP", ip4Match), ("IP", ip6Match), ("UUID", uuidMatch), ("MAC", macMatch)]

/-! ## The redaction store (services/sanitize.js) -/

/-- `PLACEHOLDER_PREFIX` of sanitize.js line 4, the string `[REDACTED_`. -/
def phMark : Text :=
  '[' :: 'R' :: 'E' :: 'D' :: 'A' :: 'C' :: 'T' :: 'E' :: 'D' :: '_' :: []

/-- `DEFAULT_TTL_MS` (sanitize.js line 5) with its default of ten minutes. -/
def DEFAULT_TTL_MS : Nat := 10 * 60 * 1000

/-- One per-proposal redaction record (sanitize.js `ensureRecord`). -/
structure RedactionRecord where
  mappings : List (Text × Text)
  counters : List (String × Nat)
  expiresAt : Nat
  deriving Repr, DecidableEq

/-- The module-level `STORE` map, proposal id to record, in insertion order. -/
abbrev RedactionStore := List (String × RedactionRecord)

/-- Association lookup mirroring `Map.get`. -/
def storeGet (s : RedactionStore) (p : String) : Option RedactionRecord :=
  match s.find? (fun e => e.1 = p) with
  | some e => some e.2
  | none => none

/-- `Map.set`: update in place if the key exists, else append. -/
def storeSet (s : RedactionStore) (p : String) (r : RedactionRecord) : RedactionStore :=
  if (s.find? (fun e => e.1 = p)).isSome then
    s.map (fun e => if e.1 = p then (p, r) else e)
  else s ++ [(p, r)]

/-- `Map.delete`. -/
def storeDel (s : RedactionStore) (p : String) : RedactionStore :=
  s.filter (fun e => e.1 ≠ p)

/-- `pruneExpiredMappings` (sanitize.js lines 21–28): drop records whose
`expiresAt` is truthy and not in the future. -/
def pruneExpired (now : Nat) (s : RedactionStore) : RedactionStore :=
  s.filter (fun e => !(0 < e.2.expiresAt && e.2.expiresAt ≤ now))

/-- Counter lookup for one category. -/
def counterGet (cs : List (String × Nat)) (ty : String) : Nat :=
  match cs.find? (fun e => e.1 = ty) with
  | some e => e.2
  | none => 0

/-- Bump the per-category counter (sanitize.js line 47). -/
def counterBump (cs : List (String × Nat)) (ty : String) : List (String × Nat) :=
  if (cs.find? (fun e => e.1 = ty)).isSome then
    cs.map (fun e => if e.1 = ty then (ty, e.2 + 1) else e)
  else cs ++ [(ty, counterGet cs ty + 1)]

/-- `buildPlaceholder` (sanitize.js lines 46–49): the placeholder text for
category `ty` at counter value `n` is `[REDACTED_<ty>_<n>]`. -/
def placeholderText (ty : String) (n : Nat) : Text :=
  phMark ++ ty.toList ++ '_' :: (toString n).toList ++ [']']

/-- `isAlreadyPlaceholder` (sanitize.js lines 51–53). -/
def isAlreadyPlaceholder (t : Text) : Bool :=
  isStart phMark t && t.getLast? = some ']'

/-- One unit of the replacement scan: an unmatched character or one regex match. -/
inductive Seg where
  | lit (c : Char)
  | hit (t : Text)
  deriving Repr, DecidableEq

/-- The match scan of `String.replace` with a global regex: find
non-overlapping matches left to right on the original text.  `before` is
the reversed prefix already passed (the callback output is not rescanned,
but lookbehinds still see the original text). -/
def scanText (m : Matcher) : Nat → Text → Text → List Seg
  | 0, _, _ => []
  | _ + 1, _, [] => []
  | fuel + 1, before, c :: rest =>
    match m before (c :: rest) with
    | some (n + 1) =>
      let matched := (c :: rest).take (n + 1)
      Seg.hit matched ::
        scanText m fuel (matched.reverse ++ before) ((c :: rest).drop (n + 1))
    | _ => Seg.lit c :: scanText m fuel (c :: before) rest

/-- Replay the scanned segments through the replacement callback of
sanitize.js lines 75–83: skip matches that are already placeholders, mint
a fresh placeholder for the rest and record the mapping. -/
def applySegs (ty : String) :
    List Seg → RedactionRecord → Nat → Text × RedactionRecord × Nat
  | [], rec, cnt => ([], rec, cnt)
  | Seg.lit c :: rest, rec, cnt =>
    let (t, rec1, cnt1) := applySegs ty rest rec cnt
    (c :: t, rec1, cnt1)
  | Seg.hit mt :: rest, rec, cnt =>
    if isAlreadyPlaceholder mt then
      let (t, rec1, cnt1) := applySegs ty rest rec cnt
      (mt ++ t, rec1, cnt1)
    else
      let counters1 := counterBump rec.counters ty
      let ph := placeholderText ty (counterGet counters1 ty)
      let rec1 : RedactionRecord :=
        { rec with counters := counters1, mappings := rec.mappings ++ [(ph, mt)] }
      let (t, rec2, cnt1) := applySegs ty rest rec1 (cnt + 1)
      (ph ++ t, rec2, cnt1)

/-- One `workingText.replace(regex, cb)` pass over the working text. -/
def runPass (ty : String) (m : Matcher) (text : Text) (rec : RedactionRecord)
    (cnt : Nat) : Text × RedactionRecord × Nat :=
  applySegs ty (scanText m text.length [] text) rec cnt

/-- Fold of the `for (const { type, regex } of PATTERNS)` loop. -/
def runPasses : List (String × Matcher) → Text → RedactionRecord → Nat →
    Text × RedactionRecord × Nat
  | [], text, rec, cnt => (text, rec, cnt)
  | (ty, m) :: rest, text, rec, cnt =>
    let (t1, rec1, cnt1) := runPass ty m text rec cnt
    runPasses rest t1 rec1 cnt1

/-- Result value of `sanitizeForLLM` (the preview field is elided). -/
structure SanitizeResult where
  text : Text
  redactionsApplied : Nat
  deriving Repr, DecidableEq

/-- `sanitizeForLLM` (sanitize.js lines 55–110) on string input: prune the
store, create or refresh the record for `p`, run every pattern pass,
refresh the expiry, and store the updated record.  The audit call and the
preview are side effects without observable influence here.  An empty
proposal id throws (modelled as `Except.error`). -/
def sanitizeForLLM (input : Text) (p : String) (store : RedactionStore)
    (now : Nat) : Except String SanitizeResult × RedactionStore :=
  if p = "" then (Except.error "proposalId is required for sanitization", store)
  else
    let pruned := pruneExpired now store
    let rec0 : RedactionRecord :=
      match storeGet pruned p with
      | some r => { r with expiresAt := now + DEFAULT_TTL_MS }
      | none => { mappings := [], counters := [], expiresAt := now + DEFAULT_TTL_MS }
    let out := runPasses PATTERNS input rec0 0
    let rec2 := { out.2.1 with expiresAt := now + DEFAULT_TTL_MS }
    (Except.ok { text := out.1, redactionsApplied := out.2.2 }, storeSet pruned p rec2)

/-- `hydrated.split(placeholder).join(value)` for a non-empty placeholder:
replace every non-overlapping occurrence left to right.  Fuel-based so the
kernel can evaluate it. -/
def replaceAllF (ph v : Text) : Nat → Text → Text
  | 0, t => t
  | fuel + 1, t =>
    if isStart ph t ∧ ph ≠ [] then v ++ replaceAllF ph v fuel (t.drop ph.length)
    else
      match t with
      | [] => []
      | c :: rest => c :: replaceAllF ph v fuel rest

/-- All-occurrence replacement with sufficient fuel. -/
def replaceAll (t ph v : Text) : Text := replaceAllF ph v t.length t

/-- `rehydrateFromLLM` (sanitize.js lines 112–137): falsy id returns the
input untouched; otherwise prune, and with no surviving record return the
input unchanged.  With a record, substitute every mapping in insertion
order, fail when the placeholder marker is still present, and delete the
record either way (single use). -/
def rehydrateFromLLM (output : Text) (p : String) (store : RedactionStore)
    (now : Nat) : Except String Text × RedactionStore :=
  if p = "" then (Except.ok output, store)
  else
    let pruned := pruneExpired now store
    match storeGet pruned p with
    | none => (Except.ok output, pruned)
    | some rec =>
      let hydrated := rec.mappings.foldl (fun t e => replaceAll t e.1 e.2) output
      if hasSub hydrated phMark then
        (Except.error "Unresolved placeholders detected during rehydration",
         storeDel pruned p)
      else (Except.ok hydrated, storeDel pruned p)

/-- Simultaneous single-pass substitution of a mapping list: at each
position replace the first mapping placeholder that starts there (and
fail on a placeholder marker that no mapping explains).  This is the
specification-side inverse used to state when a sanitization is clean. -/
def simsubstF (M : List (Text × Text)) : Nat → Text → Option Text
  | 0, t => if t = [] then some [] else none
  | fuel + 1, t =>
    match M.find? (fun e => isStart e.1 t && e.1 ≠ []) with
    | some e => (simsubstF M fuel (t.drop e.1.length)).map (fun x => e.2 ++ x)
    | none =>
      match t with
      | [] => some []
      | c :: rest =>
        if isStart phMark t then none
        else (simsubstF M fuel rest).map (fun x => c :: x)

/-- Simultaneous substitution with sufficient fuel. -/
def simsubst (M : List (Text × Text)) (t : Text) : Option Text :=
  simsubstF M t.length t

/-! ## JSON values, `JSON.stringify` and `JSON.parse`

The stored proposal is a JSON value; the confirm route serializes it,
rehydrates the serialized text, and parses the result back.  Numbers are
restricted to integers (Proxmox vmids) and string escaping covers the
quote and backslash escapes; both restrictions are immaterial to the
claims below, which never rely on floats or exotic escapes. -/

inductive Json where
  | null
  | bool (b : Bool)
  | num (n : Int)
  | str (s : Text)
  | arr (xs : List Json)
  | obj (fs : List (String × Json))
  deriving Inhabited

/-- JSON string escaping for `"` and `\`. -/
def jEscape : Text → Text
  | [] => []
  | c :: rest =>
    if c = '"' ∨ c = '\\' then '\\' :: c :: jEscape rest
    else c :: jEscape rest

/-- Comma-join serialized items. -/
def joinComma : List Text → Text
  | [] => []
  | [t] => t
  | t :: rest => t ++ ',' :: joinComma rest

/-- `JSON.stringify`, fuel-bounded on nesting depth (values in this
development are shallow; the fuel is never exhausted on them). -/
def stringifyF : Nat → Json → Text
  | 0, _ => []
  | fuel + 1, j =>
    match j with
    | .null => 'n' :: 'u' :: 'l' :: 'l' :: []
    | .bool true => 't' :: 'r' :: 'u' :: 'e' :: []
    | .bool false => 'f' :: 'a' :: 'l' :: 's' :: 'e' :: []
    | .num n => (toString n).toList
    | .str s => '"' :: jEscape s ++ ['"']
    | .arr xs => '[' :: joinComma (xs.map (stringifyF fuel)) ++ [']']
    | .obj fs =>
      '\x7b' :: joinComma
        (fs.map (fun e => '"' :: jEscape e.1.toList ++ '"' :: ':' :: stringifyF fuel e.2))
        ++ ['\x7d']

/-- `JSON.stringify` with a generous depth bound. -/
def stringifyJson (j : Json) : Text := stringifyF 100 j

/-- JSON whitespace skip. -/
def skipWs (t : Text) : Text := t.drop (spanLen isSpaceC t)

/-- Parse a JSON string body after the opening quote. -/
def parseStrBody : Nat → Text → Option (Text × Text)
  | 0, _ => none
  | _ + 1, [] => none
  | fuel + 1, c :: rest =>
    if c = '"' then some ([], rest)
    else if c = '\\' then
      match rest with
      | e :: rest2 =>
        if e = '"' ∨ e = '\\' ∨ e = '/' then
          (parseStrBody fuel rest2).map (fun r => (e :: r.1, r.2))
        else none
      | [] => none
    else (parseStrBody fuel rest).map (fun r => (c :: r.1, r.2))

/-- Parse an integer literal. -/
def parseIntLit (t : Text) : Option (Int × Text) :=
  match t with
  | '-' :: rest =>
    let d := spanLen isDigitC rest
    if 1 ≤ d then
      some (-(Int.ofNat ((rest.take d).foldl (fun a c => a * 10 + (c.toNat - 48)) 0)),
            rest.drop d)
    else none
  | _ =>
    let d := spanLen isDigitC t
    if 1 ≤ d then
      some (Int.ofNat ((t.take d).foldl (fun a c => a * 10 + (c.toNat - 48)) 0), t.drop d)
    else none

/-- Parse comma-separated array items up to the closing bracket, with the
value parsing supplied as a function. -/
def parseItemsWith (pv : Text → Option (Json × Text)) :
    Nat → Text → Option (List Json × Text)
  | 0, _ => none
  | fuel + 1, t =>
    match pv t with
    | none => none
    | some (v, rest) =>
      match skipWs rest with
      | ',' :: rest2 => (parseItemsWith pv fuel rest2).map (fun r => (v :: r.1, r.2))
      | ']' :: rest2 => some ([v], rest2)
      | _ => none

/-- Parse comma-separated object fields up to the closing brace, with the
value parsing supplied as a function. -/
def parseFieldsWith (pv : Text → Option (Json × Text)) :
    Nat → Text → Option (List (String × Json) × Text)
  | 0, _ => none
  | fuel + 1, t =>
    match skipWs t with
    | '"' :: rest =>
      (match parseStrBody (rest.length + 1) rest with
       | none => none
       | some (key, rest1) =>
         match skipWs rest1 with
         | ':' :: rest2 =>
           (match pv rest2 with
            | none => none
            | some (v, rest3) =>
              match skipWs rest3 with
              | ',' :: rest4 =>
                (parseFieldsWith pv fuel rest4).map
                  (fun r => ((String.mk key, v) :: r.1, r.2))
              | '\x7d' :: rest4 => some ([(String.mk key, v)], rest4)
              | _ => none)
         | _ => none)
    | _ => none

/-- Recursive-descent JSON value parsing, fuel-bounded. -/
def parseVal : Nat → Text → Option (Json × Text)
  | 0, _ => none
  | fuel + 1, t =>
    match skipWs t with
    | 'n' :: 'u' :: 'l' :: 'l' :: rest => some (.null, rest)
    | 't' :: 'r' :: 'u' :: 'e' :: rest => some (.bool true, rest)
    | 'f' :: 'a' :: 'l' :: 's' :: 'e' :: rest => some (.bool false, rest)
    | '"' :: rest => (parseStrBody (rest.length + 1) rest).map (fun r => (Json.str r.1, r.2))
    | '[' :: rest =>
      (match skipWs rest with
       | ']' :: rest2 => some (.arr [], rest2)
       | rest1 => (parseItemsWith (parseVal fuel) (rest1.length + 1) rest1).map
           (fun r => (Json.arr r.1, r.2)))
    | '\x7b' :: rest =>
      (match skipWs rest with
       | '\x7d' :: rest2 => some (.obj [], rest2)
       | rest1 => (parseFieldsWith (parseVal fuel) (rest1.length + 1) rest1).map
           (fun r => (Json.obj r.1, r.2)))
    | t1 => parseIntLit t1 |>.map (fun r => (Json.num r.1, r.2))

/-- `JSON.parse` of a complete document. -/
def parseJson (t : Text) : Option Json :=
  match parseVal (t.length + 1) t with
  | some (v, rest) => if skipWs rest = [] then some v else none
  | none => none

/-- JavaScript truthiness of a JSON value. -/
def jsTruthy : Json → Bool
  | .null => false
  | .bool b => b
  | .num n => n ≠ 0
  | .str s => s ≠ []
  | .arr _ => true
  | .obj _ => true

/-- Property access `value?.field`: `none` unless the value is an object
with that key (for duplicate keys the last occurrence wins, as in JS). -/
def jsGet : Json → String → Option Json
  | .obj fs, k =>
    (match fs.reverse.find? (fun e => e.1 = k) with
     | some e => some e.2
     | none => none)
  | _, _ => none

/-- `String(v)` on the values this pipeline can see. -/
def jsToString : Json → Text
  | .null => 'n' :: 'u' :: 'l' :: 'l' :: []
  | .bool true => 't' :: 'r' :: 'u' :: 'e' :: []
  | .bool false => 'f' :: 'a' :: 'l' :: 's' :: 'e' :: []
  | .num n => (toString n).toList
  | .str s => s
  | .arr _ => []
  | .obj _ => '[' :: 'o' :: 'b' :: 'j' :: 'e' :: 'c' :: 't' :: ']' :: []

/-- `String(step?.action || '')`: a missing or falsy field yields the
empty string, otherwise the string conversion of the value. -/
def jsFieldString (v : Option Json) : Text :=
  match v with
  | some j => if jsTruthy j then jsToString j else []
  | none => []

/-! ## Step executor (server.js lines 316–489)

Remote Proxmox calls are modelled by an oracle indexed by the number of
calls already issued; every call is appended to a trace so that theorems
can talk about what actually reached the remote API. -/

/-- Result of one remote call as raced against the step timer:
`hang` is a call that outlives the timeout. -/
inductive RawOutcome where
  | ok (out : Text)
  | err (status : Option Int) (msg : Text)
  | hang
  deriving Repr, DecidableEq

/-- A remote call as issued: action, node, vmid. -/
structure RemoteCall where
  action : Text
  node : Text
  vmid : Int
  deriving Repr, DecidableEq

/-- Lock table plus the trace of issued remote calls. -/
structure ExecState where
  locks : List Text
  calls : List RemoteCall
  deriving Repr, DecidableEq

/-- Environment: the dual-control flag and the remote-call oracle
(outcome of the n-th remote call issued by the process). -/
structure ExecEnv where
  requireDualControl : Bool
  oracle : Nat → RawOutcome

/-- Modelled from the spec: `src/backend/src/lockManager.js` is not among
the sources; §4.2 specifies `key(host, id)` as a string composition of
the `(host, id)` pair, with non-blocking test-and-set acquire and
idempotent release. -/
def buildResourceKey (node : Text) (vmid : Int) : Text :=
  node ++ ':' :: (toString vmid).toList

/-- Modelled from the spec: non-blocking test-and-set acquire (§4.2). -/
def acquireLock (key : Text) (st : ExecState) : Bool × ExecState :=
  if st.locks.contains key then (false, st)
  else (true, { st with locks := key :: st.locks })

/-- Modelled from the spec: idempotent release (§4.2). -/
def releaseLock (key : Text) (st : ExecState) : ExecState :=
  { st with locks := st.locks.filter (· ≠ key) }

/-- `performVmAction` (actionHandlers.js lines 232–235): issue one remote
call; the oracle decides its outcome, the trace records it. -/
def performVmAction (env : ExecEnv) (st : ExecState) (action node : Text)
    (vmid : Int) : RawOutcome × ExecState :=
  (env.oracle st.calls.length,
   { st with calls := st.calls ++ [{ action := action, node := node, vmid := vmid }] })

/-- `runWithTimeout` (server.js lines 316–326): a hung call loses the race
and rejects with the timeout message; other outcomes pass through. -/
def runWithTimeout (o : RawOutcome) : Except Text Text :=
  match o with
  | .ok out => .ok out
  | .err _ msg => .error msg
  | .hang => .error ("Step timed out".toList)

/-- The `while (attempt < 2)` loop of `executeWithRetry` (server.js lines
435–450), with the loop counter, the last error, and a structural fuel of
two iterations. -/
def retryGo (env : ExecEnv) (action node : Text) (vmid : Int) :
    Nat → Nat → Text → ExecState → (Except Text Text × ExecState)
  | 0, _, last, st => (.error last, st)
  | fuel + 1, i, last, st =>
    if i < 2 then
      let (o, st1) := performVmAction env st action node vmid
      match runWithTimeout o with
      | .ok v => (.ok v, st1)
      | .error e =>
        if 2 ≤ i + 1 then (.error e, st1)
        else retryGo env action node vmid fuel (i + 1) e st1
    else (.error last, st)

/-- `executeWithRetry` (server.js lines 435–450).  The timeout duration is
threaded for fidelity; outcomes come from the oracle. -/
def executeWithRetry (env : ExecEnv) (action node : Text) (vmid : Int)
    (_timeoutMs : Int) (st : ExecState) : Except Text Text × ExecState :=
  retryGo env action node vmid 2 0 ("Unknown error".toList) st

/-- `allowedExecutionActions` (server.js line 215). -/
def allowedExecutionActions : List Text :=
  ["start".toList, "stop".toList, "reboot".toList]

/-- `destructiveActions` (actionHandlers.js line 15). -/
def destructiveActions : List Text := ["stop".toList, "reboot".toList]

/-- `STEP_TIMEOUT_MS` default (server.js line 216). -/
def STEP_TIMEOUT_MS : Int := 15000

/-- `Number(step?.timeoutMs) || STEP_TIMEOUT_MS` for the step timeout. -/
def stepTimeout (v : Option Json) : Int :=
  match v with
  | some (.num n) => if n ≠ 0 then n else STEP_TIMEOUT_MS
  | _ => STEP_TIMEOUT_MS

/-- One per-step result record, as pushed by `executeProposalSteps`. -/
structure StepResult where
  index : Nat
  action : Text
  node : Text
  vmid : Int
  status : String
  output : Option Text
  errMsg : Option Text
  deriving Repr, DecidableEq

/-- Loop body of `executeProposalSteps` (server.js lines 456–486).  A
thrown error is returned as `Except.error` carrying only the message, so
the locally accumulated results are lost to the caller exactly as in the
source. -/
def execStepsGo (env : ExecEnv) :
    List Json → Nat → List StepResult → ExecState →
    Except Text (List StepResult) × ExecState
  | [], _, acc, st => (.ok acc, st)
  | step :: rest, index, acc, st =>
    let action := lowerT (jsFieldString (jsGet step "action"))
    if !allowedExecutionActions.contains action then
      (.error ("Unsupported action \"".toList ++ action ++ "\"".toList), st)
    else
      match jsGet step "node", jsGet step "vmid" with
      | some (.str node), some (.num vmid) =>
        if node = [] then
          (.error ("Invalid step definition at index ".toList ++ (toString index).toList), st)
        else
          let lockKey := buildResourceKey node vmid
          let (got, st1) := acquireLock lockKey st
          if !got then
            (.error ("Resource ".toList ++ node ++ '/' :: (toString vmid).toList ++
                     " is locked by another operation".toList), st1)
          else
            let timeoutMs := stepTimeout (jsGet step "timeoutMs")
            let (r, st2) := executeWithRetry env action node vmid timeoutMs st1
            let st3 := releaseLock lockKey st2
            match r with
            | .ok out =>
              execStepsGo env rest (index + 1)
                (acc ++ [{ index := index, action := action, node := node, vmid := vmid,
                           status := "success", output := some out, errMsg := none }]) st3
            | .error e =>
              (.error ("Step ".toList ++ (toString index).toList ++ " failed: ".toList ++ e),
               st3)
      | _, _ =>
        (.error ("Invalid step definition at index ".toList ++ (toString index).toList), st)

/-- `executeProposalSteps` (server.js lines 452–489). -/
def executeProposalSteps (env : ExecEnv) (proposal : Json) (st : ExecState) :
    Except Text (List StepResult) × ExecState :=
  let steps := match jsGet proposal "steps" with
    | some (.arr xs) => xs
    | _ => []
  execStepsGo env steps 0 [] st

/-! ## Proposal store (src/proposalStore.js) and the confirm route -/

/-- One record of the in-memory `proposals` map. -/
structure ProposalRecord where
  id : String
  proposal : Json
  createdAt : Nat
  status : String
  createdBy : String
  approvals : List String
  destructive : Bool
  results : List StepResult

/-- The `proposals` map in insertion order. -/
abbrev ProposalStore := List (String × ProposalRecord)

/-- `getProposal` (proposalStore.js lines 187–189). -/
def getProposal (ps : ProposalStore) (id : String) : Option ProposalRecord :=
  match ps.find? (fun e => e.1 = id) with
  | some e => some e.2
  | none => none

/-- `saveApproval` (proposalStore.js lines 191–199): add the username to
the approval set of the record, if the record exists. -/
def saveApproval (ps : ProposalStore) (id : String) (username : String) :
    ProposalStore :=
  ps.map (fun e =>
    if e.1 = id then
      (e.1, { e.2 with approvals :=
        if e.2.approvals.contains username then e.2.approvals
        else e.2.approvals ++ [username] })
    else e)

/-- `markExecuted` (proposalStore.js lines 201–208): overwrite status and
results of the record, if it exists. -/
def markExecuted (ps : ProposalStore) (id : String) (status : String)
    (results : List StepResult) : ProposalStore :=
  ps.map (fun e =>
    if e.1 = id then (e.1, { e.2 with status := status, results := results })
    else e)

/-- The full mutable state the confirm route touches. -/
structure ServerState where
  proposals : ProposalStore
  redactions : RedactionStore
  exec : ExecState

/-- The `decision` field of the request body as the route can see it. -/
inductive DecisionInput where
  | missing
  | nonString
  | str (s : String)
  deriving Repr, DecidableEq

/-- Lines 1321–1323 of server.js: lower-case a string decision, treat
anything non-string as `approve`, and map everything except `deny` to
`approve`. -/
def normalizeDecision (d : DecisionInput) : String :=
  let normalized := match d with
    | .str s => lowerS s
    | _ => "approve"
  if normalized = "deny" then "deny" else "approve"

/-- What the route sends back, reduced to the observable fields. -/
structure ConfirmResponse where
  httpStatus : Nat
  code : Option String
  resultStatus : Option String
  results : Option (List StepResult)
  deriving Repr, DecidableEq

/-- `POST /api/assistant/confirm/:id` (server.js lines 1293–1507).  Audit
records and notifications are fire-and-forget and are not modelled.  The
`executionResults` variable of line 1398 is the `[]` passed to
`markExecuted` in the catch branch, since the assignment on line 1439
never happens when `executeProposalSteps` throws. -/
def confirmProposal (env : ExecEnv) (id username : String)
    (decision : DecisionInput) (now : Nat) (st : ServerState) :
    ConfirmResponse × ServerState :=
  match getProposal st.proposals id with
  | none =>
    ({ httpStatus := 404, code := some "PROPOSAL_NOT_FOUND",
       resultStatus := none, results := none }, st)
  | some record =>
    if record.status = "COMPLETED" then
      ({ httpStatus := 409, code := some "ALREADY_EXECUTED",
         resultStatus := none, results := none }, st)
    else
      let decision := normalizeDecision decision
      let dualControlEnabled := env.requireDualControl && record.destructive
      if decision = "deny" then
        ({ httpStatus := 200, code := none, resultStatus := some "DENIED",
           results := none },
         { st with proposals := markExecuted st.proposals id "DENIED" record.results })
      else if dualControlEnabled && record.approvals.contains username then
        ({ httpStatus := 409, code := some "ALREADY_APPROVED",
           resultStatus := none, results := none }, st)
      else if dualControlEnabled && record.approvals.isEmpty then
        ({ httpStatus := 200, code := none,
           resultStatus := some "PENDING_SECOND_APPROVAL", results := none },
         { st with proposals := saveApproval st.proposals id username })
      else
        let ps1 := saveApproval st.proposals id username
        let serialized := stringifyJson
          (if jsTruthy record.proposal then record.proposal else .obj [])
        let (hyd, red1) := rehydrateFromLLM serialized id st.redactions now
        match hyd with
        | .error _ =>
          ({ httpStatus := 500, code := some "REHYDRATION_FAILED",
             resultStatus := none, results := none },
           { st with proposals := ps1, redactions := red1 })
        | .ok hydrated =>
          let proposalForExecution :=
            match parseJson hydrated with
            | some p => p
            | none => record.proposal
          let (r, exec1) := executeProposalSteps env proposalForExecution st.exec
          match r with
          | .ok executionResults =>
            ({ httpStatus := 200, code := none, resultStatus := none,
               results := some executionResults },
             { proposals := markExecuted ps1 id "COMPLETED" executionResults,
               redactions := red1, exec := exec1 })
          | .error _e =>
            ({ httpStatus := 500, code := some "EXECUTION_FAILED",
               resultStatus := none, results := none },
             { proposals := markExecuted ps1 id "FAILED" [],
               redactions := red1, exec := exec1 })

/-! ## The VM action handler (actionHandlers.js lines 33–230) -/

/-- The request as `createActionHandler`'s closure can see it. -/
structure ActionReq where
  node : Option Text
  vmid : Option Int
  idemKey : Option String
  deriving Repr, DecidableEq

/-- Environment of the handler: the dual-control flag, the remote oracle,
the pool resolution outcome for this request, and the merged pool-access
policy (the three audit-only variants of lines 84–126 share it). -/
structure ActionEnv where
  requireDualControl : Bool
  oracle : Nat → RawOutcome
  poolResolve : Except Text Text
  poolAllowed : Text → Bool

/-- The handler's mutable state: the idempotency cache (token to recorded
result) and the shared lock table / call trace. -/
structure ActionState where
  idem : List (String × String)
  exec : ExecState

/-- Forget the handler-only fields of the environment. -/
def ActionEnv.toExecEnv (e : ActionEnv) : ExecEnv :=
  { requireDualControl := e.requireDualControl, oracle := e.oracle }

/-- Response of the handler, reduced to the observable fields. -/
structure ActionResponse where
  httpStatus : Int
  code : Option String
  deriving Repr, DecidableEq

/-- ASCII trim, for Joi's `string().trim()` conversion. -/
def trimText (t : Text) : Text :=
  ((t.reverse.drop (spanLen isSpaceC t.reverse)).reverse).drop
    (spanLen isSpaceC ((t.reverse.drop (spanLen isSpaceC t.reverse)).reverse))

/-- The handler returned by `createActionHandler(action)` (actionHandlers.js
lines 33–230).  Validation mirrors the Joi schema (trimmed non-empty node,
integer vmid of at least 100).  A hung remote call never reaches the
`finally`, so the lock stays held and no idempotency entry is written;
its "response" is a sentinel status 0. -/
def handleAction (env : ActionEnv) (action : Text) (req : ActionReq)
    (st : ActionState) : ActionResponse × ActionState :=
  match req.node, req.vmid with
  | some nodeRaw, some vmid =>
    let node := trimText nodeRaw
    if node = [] ∨ vmid < 100 then
      ({ httpStatus := 400, code := some "BAD_REQUEST" }, st)
    else
      match req.idemKey with
      | none => ({ httpStatus := 400, code := some "MISSING_IDEMPOTENCY_KEY" }, st)
      | some key =>
        if key = "" then
          ({ httpStatus := 400, code := some "MISSING_IDEMPOTENCY_KEY" }, st)
        else if (st.idem.find? (fun e => e.1 = key)).isSome then
          ({ httpStatus := 409, code := some "DUPLICATE_REQUEST" }, st)
        else
          let poolAllowed := match env.poolResolve with
            | .error _ => false
            | .ok pool => env.poolAllowed pool
          if !poolAllowed then
            ({ httpStatus := 403, code := some "POOL_FORBIDDEN" }, st)
          else
            let lockKey := buildResourceKey node vmid
            let (got, exec1) := acquireLock lockKey st.exec
            if !got then
              ({ httpStatus := 423, code := some "RESOURCE_LOCKED" },
               { st with exec := exec1 })
            else
              let dualControlRequired :=
                env.requireDualControl && destructiveActions.contains action
              if dualControlRequired then
                ({ httpStatus := 200, code := none },
                 { idem := st.idem ++ [(key, "pending_approval")],
                   exec := releaseLock lockKey exec1 })
              else
                let (o, exec2) := performVmAction env.toExecEnv exec1 action node vmid
                match o with
                | .ok _ =>
                  ({ httpStatus := 200, code := none },
                   { idem := st.idem ++ [(key, "success")],
                     exec := releaseLock lockKey exec2 })
                | .err status _ =>
                  ({ httpStatus :=
                       (match status with
                        | some s => if s ≠ 0 then s else 502
                        | none => 502),
                     code := some "PROXMOX_ACTION_FAILED" },
                   { idem := st.idem ++ [(key, "fail")],
                     exec := releaseLock lockKey exec2 })
                | .hang =>
                  ({ httpStatus := 0, code := some "NO_RESPONSE" },
                   { st with exec := exec2 })
  | _, _ => ({ httpStatus := 400, code := some "BAD_REQUEST" }, st)

/-! ## Concrete scenario data used by the theorems below -/

/-- A step object as the generator produces it. -/
def stepJson (a n : String) (v : Int) : Json :=
  .obj [("action", .str a.toList), ("node", .str n.toList), ("vmid", .num v)]

/-- The spec §8 scenario proposal: `[stop(nodeA,100), start(nodeA,100)]`. -/
def twoStepProposal : Json :=
  .obj [("id", .str "p1".toList),
        ("steps", .arr [stepJson "stop" "nodeA" 100, stepJson "start" "nodeA" 100])]

/-- A pending destructive record for the scenario proposal. -/
def pendingRecord : ProposalRecord :=
  { id := "p1", proposal := twoStepProposal, createdAt := 0, status := "PENDING",
    createdBy := "op", approvals := [], destructive := true, results := [] }

/-- Empty lock table and call trace. -/
def emptyExec : ExecState := ExecState.mk [] []

/-- Server state holding exactly one record under id `p1`. -/
def stateWith (r : ProposalRecord) : ServerState :=
  { proposals := [("p1", r)], redactions := [], exec := emptyExec }

/-- Environment whose remote calls always fail. -/
def failingEnv : ExecEnv where
  requireDualControl := false
  oracle := fun _ => .err none ("boom".toList)

/-- Environment whose remote calls always succeed. -/
def successEnv : ExecEnv where
  requireDualControl := false
  oracle := fun _ => .ok ("done".toList)

/-- Environment with dual control enabled and succeeding remote calls. -/
def dualSuccessEnv : ExecEnv where
  requireDualControl := true
  oracle := fun _ => .ok ("done".toList)

/-- A proposal holding a leftover placeholder in a free-text field. -/
def phNoteProposal : Json :=
  .obj [("id", .str "p1".toList),
        ("note", .str "[REDACTED_IP_1]".toList),
        ("steps", .arr [stepJson "start" "nodeA" 100])]

/-- State for the rehydration-failure run: the redaction record for `p1`
is alive at time 0 but its mappings cannot resolve the placeholder. -/
def rehydrateFailState : ServerState :=
  { proposals := [("p1", { pendingRecord with proposal := phNoteProposal })],
    redactions := [("p1", { mappings := [], counters := [], expiresAt := 50 })],
    exec := emptyExec }

/-- A proposal whose step still carries a placeholder as its node. -/
def phNodeProposal : Json :=
  .obj [("id", .str "p1".toList),
        ("steps", .arr [stepJson "start" "[REDACTED_IP_1]" 100])]

/-- State for the expired-record run: no redaction record survives. -/
def phNodeState : ServerState :=
  { proposals := [("p1", { pendingRecord with proposal := phNodeProposal })],
    redactions := [], exec := emptyExec }

/-- Action-handler environment: pool resolution and access succeed. -/
def actionEnvOk : ActionEnv where
  requireDualControl := false
  oracle := fun _ => .ok ("ok".toList)
  poolResolve := .ok ("poolA".toList)
  poolAllowed := fun _ => true

/-- A well-formed start/stop request carrying idempotency token `tok1`. -/
def actionReqTok : ActionReq :=
  { node := some ("nodeA".toList), vmid := some 100, idemKey := some "tok1" }

/-- The lock key of `(nodeA, 100)`. -/
def keyNodeA : Text := buildResourceKey ("nodeA".toList) 100

/-- A redaction store with one live record mapping `[REDACTED_TOKEN_1]`
to a secret value. -/
def liveStore : RedactionStore :=
  [("p1", { mappings := [("[REDACTED_TOKEN_1]".toList, "sk-AAAAAAAAAAAAAAAAAAAA".toList)],
            counters := [("TOKEN", 1)], expiresAt := 50 })]

/-- The record held by `liveStore`. -/
def liveRecord : RedactionRecord :=
  { mappings := [("[REDACTED_TOKEN_1]".toList, "sk-AAAAAAAAAAAAAAAAAAAA".toList)],
    counters := [("TOKEN", 1)], expiresAt := 50 }

deriving instance DecidableEq for Except

/-! ## Clean sanitization: the shapes under which rehydration inverts
sanitization.  `wellFormedPh` is the shape of every minted placeholder
(the marker followed by a bracket-free body), `pairwiseNoStart` says no
recorded placeholder is a leading segment of another, and `Decomp`
relates the sanitized text to the original: the text is the original
with marked substitution sites, and outside those sites the placeholder
marker never starts. -/

/-- The tail of the placeholder marker (`REDACTED_`). -/
def markTail : Text :=
  'R' :: 'E' :: 'D' :: 'A' :: 'C' :: 'T' :: 'E' :: 'D' :: '_' :: []

/-- A placeholder of the minted shape: the marker followed by a body
that contains no opening bracket. -/
def wellFormedPh (ph : Text) : Bool :=
  isStart phMark ph && (ph.drop phMark.length).all (fun c => !(c = '['))

/-- Neither text is a leading segment of the other. -/
def noStartPair (a b : Text) : Bool := !(isStart a b) && !(isStart b a)

/-- No recorded placeholder is a leading segment of another. -/
def pairwiseNoStart : List (Text × Text) → Bool
  | [] => true
  | e :: rest => rest.all (fun f => noStartPair e.1 f.1) && pairwiseNoStart rest

/-- `Decomp M S x` : `S` is `x` with some substrings replaced by
placeholders of entries of `M` (an entry may be used any number of
times), and the placeholder marker never starts at an unreplaced
character of `S`. -/
inductive Decomp (M : List (Text × Text)) : Text → Text → Prop where
  | nil : Decomp M [] []
  | lit (c : Char) (S x : Text) : isStart phMark (c :: S) = false →
      Decomp M S x → Decomp M (c :: S) (c :: x)
  | ent (ph v S x : Text) : (ph, v) ∈ M →
      Decomp M S x → Decomp M (ph ++ S) (v ++ x)

/-! ## Theorems -/

/-- Normalized decisions are binary. -/
theorem normalizeDecision_cases (d : DecisionInput) :
    normalizeDecision d = "deny" ∨ normalizeDecision d = "approve" := by
  cases d with
  | missing => right; rfl
  | nonString => right; rfl
  | str s =>
    by_cases h : lowerS s = "deny"
    · left; simp [normalizeDecision, h]
    · right; simp [normalizeDecision, h]

/-- The confirm route only consumes the decision through its normalization. -/
theorem confirm_decision_congr (env : ExecEnv) (id username : String)
    (d d' : DecisionInput) (now : Nat) (st : ServerState)
    (h : normalizeDecision d = normalizeDecision d') :
    confirmProposal env id username d now st =
      confirmProposal env id username d' now st := by
  unfold confirmProposal
  rw [h]

/-- C8: every step issues at most two remote calls: one initial attempt
and, on any failure of it (a timeout included, which is an ordinary
failure for retry purposes), exactly one retry whose error is surfaced;
no third attempt exists. -/
theorem c8_bounded_retry (env : ExecEnv) (action node : Text) (vmid : Int)
    (timeoutMs : Int) (st : ExecState) :
    (executeWithRetry env action node vmid timeoutMs st =
      match runWithTimeout (env.oracle st.calls.length) with
      | .ok v =>
        (Except.ok v,
         { st with calls := st.calls ++
             [{ action := action, node := node, vmid := vmid }] })
      | .error _ =>
        match runWithTimeout (env.oracle (st.calls.length + 1)) with
        | .ok v =>
          (Except.ok v,
           { st with calls := st.calls ++
               [{ action := action, node := node, vmid := vmid },
                { action := action, node := node, vmid := vmid }] })
        | .error e =>
          (Except.error e,
           { st with calls := st.calls ++
               [{ action := action, node := node, vmid := vmid },
                { action := action, node := node, vmid := vmid }] })) ∧
    runWithTimeout .hang = Except.error ("Step timed out".toList) := by
  refine ⟨?_, rfl⟩
  cases h0 : env.oracle st.calls.length <;>
    cases h1 : env.oracle (st.calls.length + 1) <;>
      simp [executeWithRetry, retryGo, performVmAction, runWithTimeout, h0, h1]

/-- C10: any decision value other than the case-insensitive string
`deny` — a missing field, a non-string value, or a misspelling such as
`denied` — normalizes to `approve`, and such a confirm call executes the
steps of a pending proposal. -/
theorem c10_nondeny_is_approve :
    (∀ s : String, normalizeDecision (.str s) =
       if lowerS s = "deny" then "deny" else "approve") ∧
    normalizeDecision .missing = "approve" ∧
    normalizeDecision .nonString = "approve" ∧
    (∀ d : DecisionInput, normalizeDecision d ≠ "deny" →
      (confirmProposal successEnv "p1" "alice" d 0 (stateWith pendingRecord)).1.httpStatus
          = 200 ∧
      (getProposal
          (confirmProposal successEnv "p1" "alice" d 0 (stateWith pendingRecord)).2.proposals
          "p1").map (fun r => r.status) = some "COMPLETED" ∧
      (confirmProposal successEnv "p1" "alice" d 0
          (stateWith pendingRecord)).2.exec.calls.length = 2) := by
  refine ⟨fun s => rfl, rfl, rfl, fun d hd => ?_⟩
  have happ : normalizeDecision d = normalizeDecision (DecisionInput.str "approve") := by
    rcases normalizeDecision_cases d with h | h
    · exact absurd h hd
    · rw [h]; rfl
  rw [confirm_decision_congr successEnv "p1" "alice" d (.str "approve") 0
    (stateWith pendingRecord) happ]
  refine ⟨by decide, by decide, by decide⟩

/-- Witness for C10 at the misspelled decision `denied`. -/
theorem c10_nondeny_is_approve_witness :
    normalizeDecision (.str "denied") ≠ "deny" ∧
    (getProposal
        (confirmProposal successEnv "p1" "alice" (.str "denied") 0
          (stateWith pendingRecord)).2.proposals
        "p1").map (fun r => r.status) = some "COMPLETED" :=
  ⟨by decide, (c10_nondeny_is_approve.2.2.2 (.str "denied") (by decide)).2.1⟩

/-- C2 (amended): a `COMPLETED` proposal is protected: any further
confirm or deny call returns the `ALREADY_EXECUTED` conflict and leaves
the whole server state untouched.  (`FAILED` and `DENIED` are not
protected, see the counterexample.) -/
theorem c2_completed_guard (env : ExecEnv) (id username : String)
    (d : DecisionInput) (now : Nat) (st : ServerState) (record : ProposalRecord)
    (hrec : getProposal st.proposals id = some record)
    (hstatus : record.status = "COMPLETED") :
    confirmProposal env id username d now st =
      ({ httpStatus := 409, code := some "ALREADY_EXECUTED",
         resultStatus := none, results := none }, st) := by
  unfold confirmProposal
  rw [hrec]
  simp [hstatus]

/-- Witness for C2 on a concrete completed record. -/
theorem c2_completed_guard_witness :
    confirmProposal successEnv "p1" "alice" (.str "approve") 0
        (stateWith { pendingRecord with status := "COMPLETED" }) =
      ({ httpStatus := 409, code := some "ALREADY_EXECUTED",
         resultStatus := none, results := none },
       stateWith { pendingRecord with status := "COMPLETED" }) :=
  c2_completed_guard successEnv "p1" "alice" (.str "approve") 0
    (stateWith { pendingRecord with status := "COMPLETED" })
    { pendingRecord with status := "COMPLETED" } rfl rfl

/-- C2 (counterexample): a proposal in the terminal status `DENIED`
accepts a further approve call, re-executes its steps (two remote calls
are issued) and moves to `COMPLETED`, so terminal statuses other than
`COMPLETED` are not invariant under further confirm calls. -/
theorem c2_denied_reexecutes :
    (getProposal
        (confirmProposal successEnv "p1" "alice" (.str "approve") 0
          (stateWith { pendingRecord with status := "DENIED" })).2.proposals
        "p1").map (fun r => r.status) = some "COMPLETED" ∧
    (confirmProposal successEnv "p1" "alice" (.str "approve") 0
        (stateWith { pendingRecord with status := "DENIED" })).1.httpStatus = 200 ∧
    (confirmProposal successEnv "p1" "alice" (.str "approve") 0
        (stateWith { pendingRecord with status := "DENIED" })).2.exec.calls.length = 2 := by
  refine ⟨by decide, by decide, by decide⟩

/-- C1: on the spec §8 scenario — steps `[stop(nodeA,100), start(nodeA,100)]`
with the remote call for `stop` failing twice — the confirm route marks the
proposal `FAILED`, but the stored results are empty: the `StepResult`
gathered for the failing step is lost because the thrown error carries only
a message and `executionResults` keeps its initial `[]`.  Exactly two
remote calls were issued, both for `stop`. -/
theorem c1_partial_results_lost :
    (confirmProposal failingEnv "p1" "alice" (.str "approve") 0
        (stateWith pendingRecord)).1.code = some "EXECUTION_FAILED" ∧
    (getProposal
        (confirmProposal failingEnv "p1" "alice" (.str "approve") 0
          (stateWith pendingRecord)).2.proposals
        "p1").map (fun r => r.status) = some "FAILED" ∧
    (getProposal
        (confirmProposal failingEnv "p1" "alice" (.str "approve") 0
          (stateWith pendingRecord)).2.proposals
        "p1").map (fun r => r.results.length) = some 0 ∧
    (confirmProposal failingEnv "p1" "alice" (.str "approve") 0
        (stateWith pendingRecord)).2.exec.calls.map (fun c => c.action) =
      ["stop".toList, "stop".toList] := by
  refine ⟨by decide, by decide, by decide, by decide⟩

/-- C3: under dual control on a destructive pending proposal, the first
approval answers `PENDING_SECOND_APPROVAL` but the stored status remains
`PENDING` (it is never flipped — `saveApproval` only records the
approver); a repeat approval by the same user is rejected
`ALREADY_APPROVED` without change; a second distinct approver triggers
execution and the stored status becomes `COMPLETED`. -/
theorem c3_stored_status_stays_pending :
    (confirmProposal dualSuccessEnv "p1" "alice" (.str "approve") 0
        (stateWith pendingRecord)).1.resultStatus = some "PENDING_SECOND_APPROVAL" ∧
    (getProposal
        (confirmProposal dualSuccessEnv "p1" "alice" (.str "approve") 0
          (stateWith pendingRecord)).2.proposals
        "p1").map (fun r => r.status) = some "PENDING" ∧
    (getProposal
        (confirmProposal dualSuccessEnv "p1" "alice" (.str "approve") 0
          (stateWith pendingRecord)).2.proposals
        "p1").map (fun r => r.approvals) = some ["alice"] ∧
    (confirmProposal dualSuccessEnv "p1" "alice" (.str "approve") 0
        (confirmProposal dualSuccessEnv "p1" "alice" (.str "approve") 0
          (stateWith pendingRecord)).2).1 =
      { httpStatus := 409, code := some "ALREADY_APPROVED",
        resultStatus := none, results := none } ∧
    (confirmProposal dualSuccessEnv "p1" "alice" (.str "approve") 0
        (confirmProposal dualSuccessEnv "p1" "alice" (.str "approve") 0
          (stateWith pendingRecord)).2).2.exec.calls = [] ∧
    (getProposal
        (confirmProposal dualSuccessEnv "p1" "bob" (.str "approve") 0
          (confirmProposal dualSuccessEnv "p1" "alice" (.str "approve") 0
            (stateWith pendingRecord)).2).2.proposals
        "p1").map (fun r => r.status) = some "COMPLETED" ∧
    (getProposal
        (confirmProposal dualSuccessEnv "p1" "bob" (.str "approve") 0
          (confirmProposal dualSuccessEnv "p1" "alice" (.str "approve") 0
            (stateWith pendingRecord)).2).2.proposals
        "p1").map (fun r => r.approvals) = some ["alice", "bob"] := by
  refine ⟨by decide, by decide, by decide, by decide, by decide, by decide, by decide⟩

/-- C4: a confirm attempt whose rehydration raises the unresolved
placeholder error answers `REHYDRATION_FAILED` but leaves the proposal
`PENDING`: the early return of the inner catch skips the `markExecuted`
call of the outer catch, so the proposal is not marked `FAILED`.  No
remote call is issued and the redaction record is consumed. -/
theorem c4_unresolved_placeholder_leaves_pending :
    (confirmProposal successEnv "p1" "alice" (.str "approve") 0
        rehydrateFailState).1.httpStatus = 500 ∧
    (confirmProposal successEnv "p1" "alice" (.str "approve") 0
        rehydrateFailState).1.code = some "REHYDRATION_FAILED" ∧
    (getProposal
        (confirmProposal successEnv "p1" "alice" (.str "approve") 0
          rehydrateFailState).2.proposals
        "p1").map (fun r => r.status) = some "PENDING" ∧
    (confirmProposal successEnv "p1" "alice" (.str "approve") 0
        rehydrateFailState).2.exec.calls = [] ∧
    storeGet
        (confirmProposal successEnv "p1" "alice" (.str "approve") 0
          rehydrateFailState).2.redactions "p1" = none := by
  refine ⟨by decide, by decide, by decide, by decide, by decide⟩

/-- C5 (counterexample): with the redaction record expired (the store is
empty), a confirm attempt executes the stored proposal unchanged, so a
step whose node is the placeholder-shaped token `[REDACTED_IP_1]` reaches
the step executor and a remote call is issued against that literal
placeholder. -/
theorem c5_placeholder_reaches_executor :
    (confirmProposal successEnv "p1" "alice" (.str "approve") 0 phNodeState).1.httpStatus
        = 200 ∧
    (confirmProposal successEnv "p1" "alice" (.str "approve") 0
        phNodeState).2.exec.calls.map (fun c => c.node) = ["[REDACTED_IP_1]".toList] ∧
    hasSub ("[REDACTED_IP_1]".toList) phMark = true ∧
    (getProposal
        (confirmProposal successEnv "p1" "alice" (.str "approve") 0
          phNodeState).2.proposals
        "p1").map (fun r => r.status) = some "COMPLETED" := by
  refine ⟨by decide, by decide, by decide, by decide⟩

/-- C5 (amended): when a live redaction record exists for the proposal id,
a successful rehydration returns text free of the placeholder marker — the
executor can only receive placeholder-shaped data through the
missing-record or parse-fallback paths. -/
theorem c5_live_record_hydration_marker_free (out : Text) (p : String)
    (store : RedactionStore) (now : Nat) (rec : RedactionRecord) (h : Text)
    (st' : RedactionStore) (hp : p ≠ "")
    (hrec : storeGet (pruneExpired now store) p = some rec)
    (hok : rehydrateFromLLM out p store now = (Except.ok h, st')) :
    hasSub h phMark = false := by
  unfold rehydrateFromLLM at hok
  rw [if_neg hp] at hok
  simp only [hrec] at hok
  split at hok
  · simp at hok
  · rename_i hs
    simp only [Prod.mk.injEq, Except.ok.injEq] at hok
    rw [← hok.1]
    simpa using hs

/-- Witness for C5 on a live record whose single mapping resolves the
only placeholder of the input. -/
theorem c5_live_record_hydration_marker_free_witness :
    hasSub ("x sk-AAAAAAAAAAAAAAAAAAAA".toList) phMark = false :=
  c5_live_record_hydration_marker_free ("x [REDACTED_TOKEN_1]".toList) "p1"
    liveStore 0 liveRecord ("x sk-AAAAAAAAAAAAAAAAAAAA".toList) []
    (by decide) (by decide) (by decide)

/-- C7 (counterexample): rehydrating text that still carries a
placeholder-shaped token under an unknown proposal id is not an error:
the input comes back unchanged, although it contains the placeholder
marker. -/
theorem c7_missing_record_no_error :
    rehydrateFromLLM ("[REDACTED_TOKEN_1]".toList) "p9" [] 0 =
      (Except.ok ("[REDACTED_TOKEN_1]".toList), []) ∧
    hasSub ("[REDACTED_TOKEN_1]".toList) phMark = true := by
  exact ⟨by decide, by decide⟩

/-- C7 (amended): with an unknown or expired proposal id the input is
returned unchanged with no error — even when it still contains
placeholder-shaped tokens; the `UnresolvedPlaceholder` error arises
exactly when a live record exists and substituting its mappings leaves
the placeholder marker in the text. -/
theorem c7_missing_returns_input_leftover_errors :
    (∀ (out : Text) (p : String) (store : RedactionStore) (now : Nat),
      p ≠ "" → storeGet (pruneExpired now store) p = none →
      rehydrateFromLLM out p store now = (Except.ok out, pruneExpired now store)) ∧
    (∀ (out : Text) (p : String) (store : RedactionStore) (now : Nat)
       (rec : RedactionRecord),
      p ≠ "" → storeGet (pruneExpired now store) p = some rec →
      hasSub (rec.mappings.foldl (fun t e => replaceAll t e.1 e.2) out) phMark = true →
      (rehydrateFromLLM out p store now).1 =
        Except.error "Unresolved placeholders detected during rehydration") := by
  constructor
  · intro out p store now hp hnone
    unfold rehydrateFromLLM
    rw [if_neg hp]
    simp only [hnone]
  · intro out p store now rec hp hrec hleft
    unfold rehydrateFromLLM
    rw [if_neg hp]
    simp [hrec, hleft]

/-- Witness for C7: a missing record returns the input unchanged, and a
live record with an unresolvable placeholder raises the error. -/
theorem c7_missing_returns_input_leftover_errors_witness :
    rehydrateFromLLM ("abc".toList) "p9" [] 5 = (Except.ok ("abc".toList), []) ∧
    (rehydrateFromLLM ("x [REDACTED_IP_9]".toList) "p1" liveStore 0).1 =
      Except.error "Unresolved placeholders detected during rehydration" :=
  ⟨c7_missing_returns_input_leftover_errors.1 ("abc".toList) "p9" [] 5
     (by decide) (by decide),
   c7_missing_returns_input_leftover_errors.2 ("x [REDACTED_IP_9]".toList) "p1"
     liveStore 0 liveRecord (by decide) (by decide) (by decide)⟩

/-- C6 (counterexample): for the input `[REDACTED_` (zero recognized
patterns, so sanitization leaves it unchanged and records an empty
mapping), rehydration before expiry does not return the input: it raises
the unresolved-placeholder error, so rehydration is not a left inverse of
sanitization on inputs containing the placeholder marker. -/
theorem c6_roundtrip_fails_on_marker :
    (sanitizeForLLM ("[REDACTED_".toList) "p1" [] 0).1 =
      Except.ok { text := "[REDACTED_".toList, redactionsApplied := 0 } ∧
    (rehydrateFromLLM ("[REDACTED_".toList) "p1"
        (sanitizeForLLM ("[REDACTED_".toList) "p1" [] 0).2 0).1 =
      Except.error "Unresolved placeholders detected during rehydration" := by
  exact ⟨by decide, by decide⟩

/-- The idempotency cache lookup succeeds after appending the key. -/
theorem find_append_key_isSome (l : List (String × String)) (key v : String) :
    ((l ++ [(key, v)]).find? (fun e => e.1 = key)).isSome = true := by
  induction l with
  | nil => simp
  | cons a l ih =>
    by_cases h : a.1 = key <;> simp [List.find?_cons, h, ih]

/-- C9 (counterexample): a request rejected with `RESOURCE_LOCKED`
records no idempotency entry, so a second request with the same token
(after the lock is gone) is not rejected as a duplicate — it executes the
remote action. -/
theorem c9_locked_leaves_no_entry :
    (handleAction actionEnvOk ("stop".toList) actionReqTok
        (ActionState.mk [] (ExecState.mk [keyNodeA] []))).1 =
      { httpStatus := 423, code := some "RESOURCE_LOCKED" } ∧
    (handleAction actionEnvOk ("stop".toList) actionReqTok
        (ActionState.mk [] (ExecState.mk [keyNodeA] []))).2.idem = [] ∧
    (handleAction actionEnvOk ("stop".toList) actionReqTok
        (ActionState.mk
          (handleAction actionEnvOk ("stop".toList) actionReqTok
            (ActionState.mk [] (ExecState.mk [keyNodeA] []))).2.idem
          (ExecState.mk []
            (handleAction actionEnvOk ("stop".toList) actionReqTok
              (ActionState.mk [] (ExecState.mk [keyNodeA] []))).2.exec.calls))).1.httpStatus
        = 200 ∧
    (handleAction actionEnvOk ("stop".toList) actionReqTok
        (ActionState.mk
          (handleAction actionEnvOk ("stop".toList) actionReqTok
            (ActionState.mk [] (ExecState.mk [keyNodeA] []))).2.idem
          (ExecState.mk []
            (handleAction actionEnvOk ("stop".toList) actionReqTok
              (ActionState.mk [] (ExecState.mk [keyNodeA] []))).2.exec.calls))).2.exec.calls.length
        = 1 := by
  refine ⟨by decide, by decide, by decide, by decide⟩

/-- C9 (amended): an idempotency entry is recorded only when the request
reaches the action phase — once validation, the idempotency-key check,
pool authorization and lock acquisition have all passed — and then on
every outcome alike (dual-control pending, remote success, remote
failure); a request with a token already recorded is rejected as a
duplicate conflict with no state change and no remote call. -/
theorem c9_entry_on_action_phase :
    (∀ (env : ActionEnv) (action nodeRaw : Text) (vmid : Int) (key : String)
       (st : ActionState),
      trimText nodeRaw ≠ [] → ¬ vmid < 100 → key ≠ "" →
      (st.idem.find? (fun e => e.1 = key)).isSome = true →
      handleAction env action
          { node := some nodeRaw, vmid := some vmid, idemKey := some key } st =
        ({ httpStatus := 409, code := some "DUPLICATE_REQUEST" }, st)) ∧
    (∀ (env : ActionEnv) (action nodeRaw : Text) (vmid : Int) (key : String)
       (st : ActionState),
      trimText nodeRaw ≠ [] → ¬ vmid < 100 → key ≠ "" →
      (st.idem.find? (fun e => e.1 = key)).isSome = false →
      (match env.poolResolve with
       | .error _ => false
       | .ok pool => env.poolAllowed pool) = true →
      st.exec.locks.contains (buildResourceKey (trimText nodeRaw) vmid) = false →
      ((env.requireDualControl && destructiveActions.contains action) = true ∨
        env.oracle st.exec.calls.length ≠ .hang) →
      ((handleAction env action
          { node := some nodeRaw, vmid := some vmid, idemKey := some key }
          st).2.idem.find? (fun e => e.1 = key)).isSome = true) := by
  constructor
  · intro env action nodeRaw vmid key st hnode hvmid hkey hdup
    unfold handleAction
    simp only
    rw [if_neg (by push_neg; exact ⟨hnode, by omega⟩)]
    rw [if_neg hkey, if_pos hdup]
  · intro env action nodeRaw vmid key st hnode hvmid hkey hdup hpool hlock hnh
    have hacq : acquireLock (buildResourceKey (trimText nodeRaw) vmid) st.exec =
        (true, { locks := buildResourceKey (trimText nodeRaw) vmid :: st.exec.locks,
                 calls := st.exec.calls }) := by
      unfold acquireLock
      rw [if_neg (by rw [hlock]; exact Bool.false_ne_true)]
    unfold handleAction
    simp only
    rw [if_neg (by push_neg; exact ⟨hnode, by omega⟩), if_neg hkey]
    rw [if_neg (by rw [hdup]; exact Bool.false_ne_true)]
    rw [if_neg (by rw [hpool]; decide)]
    rw [hacq]
    rw [if_neg (by simp)]
    have hred : (performVmAction env.toExecEnv
        { locks := buildResourceKey (trimText nodeRaw) vmid :: st.exec.locks,
          calls := st.exec.calls } action (trimText nodeRaw) vmid).1 =
        env.oracle st.exec.calls.length := rfl
    by_cases hdual : (env.requireDualControl && destructiveActions.contains action) = true
    · rw [if_pos hdual]
      exact find_append_key_isSome st.idem key "pending_approval"
    · rw [if_neg hdual]
      rcases hnh with h | h
      · exact absurd h hdual
      · cases ho : env.oracle st.exec.calls.length with
        | ok out =>
          simp only [hred, ho]
          exact find_append_key_isSome st.idem key "success"
        | err s m =>
          simp only [hred, ho]
          exact find_append_key_isSome st.idem key "fail"
        | hang => exact absurd ho h

/-- Witness for C9: the duplicate branch on a recorded token, and the
entry recorded after a successful action phase. -/
theorem c9_entry_on_action_phase_witness :
    handleAction actionEnvOk ("start".toList) actionReqTok
        (ActionState.mk [("tok1", "success")] emptyExec) =
      ({ httpStatus := 409, code := some "DUPLICATE_REQUEST" },
       ActionState.mk [("tok1", "success")] emptyExec) ∧
    ((handleAction actionEnvOk ("start".toList) actionReqTok
        (ActionState.mk [] emptyExec)).2.idem.find?
          (fun e => e.1 = "tok1")).isSome = true :=
  ⟨c9_entry_on_action_phase.1 actionEnvOk ("start".toList) ("nodeA".toList) 100
     "tok1" (ActionState.mk [("tok1", "success")] emptyExec)
     (by decide) (by decide) (by decide) (by decide),
   c9_entry_on_action_phase.2 actionEnvOk ("start".toList) ("nodeA".toList) 100
     "tok1" (ActionState.mk [] emptyExec)
     (by decide) (by decide) (by decide) (by decide) (by decide) (by decide)
     (Or.inr (by decide))⟩

/-! ### Basic text lemmas for the round-trip proof -/

/-- The marker is its head bracket followed by `markTail`. -/
theorem phMark_eq : phMark = '[' :: markTail := rfl

/-- No character of `markTail` is an opening bracket. -/
theorem markTail_no_bracket : ∀ c ∈ markTail, c ≠ '[' := by decide

/-- A leading-segment test for a cons pattern. -/
theorem isStart_cons_iff (q : Char) (ps t : Text) :
    isStart (q :: ps) t = true ↔ ∃ rest, t = q :: rest ∧ isStart ps rest = true := by
  cases t with
  | nil => simp [isStart]
  | cons c rest =>
    simp only [isStart, Bool.and_eq_true, decide_eq_true_eq]
    constructor
    · rintro ⟨h1, h2⟩; exact ⟨rest, by rw [h1], h2⟩
    · rintro ⟨r, hr, h2⟩
      cases hr
      exact ⟨rfl, h2⟩

/-- A leading segment really is a leading segment. -/
theorem isStart_eq_append (a : Text) :
    ∀ t, isStart a t = true → t = a ++ t.drop a.length := by
  induction a with
  | nil => intro t _; simp
  | cons q ps ih =>
    intro t h
    obtain ⟨rest, rfl, h2⟩ := (isStart_cons_iff q ps t).mp h
    simpa using ih rest h2

/-- Every text starts with itself, whatever follows. -/
theorem isStart_append_self (a t : Text) : isStart a (a ++ t) = true := by
  induction a with
  | nil => rfl
  | cons q ps ih => simpa [isStart] using ih

/-- Leading segments compose. -/
theorem isStart_weaken (b : Text) :
    ∀ a t, isStart b a = true → isStart a t = true → isStart b t = true := by
  induction b with
  | nil => intro a t _ _; rfl
  | cons q ps ih =>
    intro a t hba hat
    obtain ⟨ra, ha, hps⟩ := (isStart_cons_iff q ps a).mp hba
    subst ha
    obtain ⟨rt, ht, hrt⟩ := (isStart_cons_iff q ra t).mp hat
    subst ht
    exact (isStart_cons_iff q ps _).mpr ⟨rt, rfl, ih ra rt hps hrt⟩

/-- A leading segment of an append is comparable with the first part. -/
theorem isStart_append_cases (b : Text) :
    ∀ a t, isStart a (b ++ t) = true → isStart a b = true ∨ isStart b a = true := by
  induction b with
  | nil => intro a t _; right; rfl
  | cons c bs ih =>
    intro a t h
    cases a with
    | nil => left; rfl
    | cons q ps =>
      rw [List.cons_append] at h
      simp only [isStart, Bool.and_eq_true, decide_eq_true_eq] at h
      obtain ⟨rfl, h2⟩ := h
      rcases ih ps t h2 with h5 | h5
      · left; simp [isStart, h5]
      · right; simp [isStart, h5]

/-- A leading occurrence is an occurrence. -/
theorem hasSub_of_isStart (t pat : Text) (h : isStart pat t = true) :
    hasSub t pat = true := by
  cases t with
  | nil => simpa [hasSub] using h
  | cons c rest => simp [hasSub, h]

/-- Substring occurrences survive dropping the head character. -/
theorem hasSub_tail_false (c : Char) (t pat : Text)
    (h : hasSub (c :: t) pat = false) :
    isStart pat (c :: t) = false ∧ hasSub t pat = false := by
  have := h
  unfold hasSub at this
  simpa [Bool.or_eq_false_iff] using this

/-- Substring occurrences survive dropping a leading chunk. -/
theorem hasSub_append_false (a : Text) :
    ∀ t pat, hasSub (a ++ t) pat = false → hasSub t pat = false := by
  induction a with
  | nil => intro t pat h; exact h
  | cons c as ih =>
    intro t pat h
    exact ih t pat (hasSub_tail_false c (as ++ t) pat h).2

/-- Replacement of a non-empty pattern in the empty text. -/
theorem replaceAllF_nil (ph v : Text) (hph : ph ≠ []) :
    ∀ fuel, replaceAllF ph v fuel [] = [] := by
  intro fuel
  cases fuel with
  | zero => rfl
  | succ n =>
    unfold replaceAllF
    rw [if_neg]
    rintro ⟨h1, -⟩
    cases ph with
    | nil => exact hph rfl
    | cons q ps => simp [isStart] at h1

/-- The fuel of `replaceAllF` is irrelevant once it covers the text. -/
theorem replaceAllF_fuel (ph v : Text) (hph : ph ≠ []) :
    ∀ (n : Nat) (t : Text) (f₁ f₂ : Nat), t.length ≤ n → t.length ≤ f₁ →
      t.length ≤ f₂ → replaceAllF ph v f₁ t = replaceAllF ph v f₂ t := by
  intro n
  induction n with
  | zero =>
    intro t f₁ f₂ ht _ _
    have : t = [] := List.length_eq_zero.mp (Nat.le_zero.mp ht)
    subst this
    rw [replaceAllF_nil ph v hph, replaceAllF_nil ph v hph]
  | succ m ih =>
    intro t f₁ f₂ ht h₁ h₂
    cases t with
    | nil => rw [replaceAllF_nil ph v hph, replaceAllF_nil ph v hph]
    | cons c rest =>
      obtain ⟨a, rfl⟩ : ∃ a, f₁ = a + 1 := by
        cases f₁ with
        | zero => simp at h₁
        | succ a => exact ⟨a, rfl⟩
      obtain ⟨b, rfl⟩ : ∃ b, f₂ = b + 1 := by
        cases f₂ with
        | zero => simp at h₂
        | succ b => exact ⟨b, rfl⟩
      by_cases hst : isStart ph (c :: rest) = true ∧ ph ≠ []
      · have hple : 1 ≤ ph.length := by
          cases ph with
          | nil => exact absurd rfl hph
          | cons _ _ => simp
        unfold replaceAllF
        rw [if_pos hst, if_pos hst]
        congr 1
        have hlen : ((c :: rest).drop ph.length).length ≤ m := by
          simp only [List.length_drop, List.length_cons] at *
          omega
        refine ih _ a b hlen ?_ ?_ <;>
          (simp only [List.length_drop, List.length_cons] at *) <;> omega
      · unfold replaceAllF
        rw [if_neg hst, if_neg hst]
        simp only [List.length_cons] at ht h₁ h₂
        have := ih rest a b (by omega) (by omega) (by omega)
        simp only [this]

/-- `replaceAll` at a match site: substitute and continue after it. -/
theorem replaceAll_pos (t ph v : Text) (hph : ph ≠ [])
    (hst : isStart ph t = true) :
    replaceAll t ph v = v ++ replaceAll (t.drop ph.length) ph v := by
  cases t with
  | nil =>
    cases ph with
    | nil => exact absurd rfl hph
    | cons q ps => simp [isStart] at hst
  | cons c rest =>
    have hple : 1 ≤ ph.length := by
      cases ph with
      | nil => exact absurd rfl hph
      | cons _ _ => simp
    unfold replaceAll
    rw [List.length_cons]
    conv =>
      lhs
      unfold replaceAllF
    rw [if_pos ⟨hst, hph⟩]
    congr 1
    exact replaceAllF_fuel ph v hph (rest.length + 1) _ _ _
      (by simp only [List.length_drop, List.length_cons]; omega)
      (by simp only [List.length_drop, List.length_cons]; omega)
      (le_refl _)

/-- `replaceAll` at a non-match: keep the character and continue. -/
theorem replaceAll_neg (c : Char) (rest ph v : Text)
    (hst : isStart ph (c :: rest) = false) :
    replaceAll (c :: rest) ph v = c :: replaceAll rest ph v := by
  unfold replaceAll
  rw [List.length_cons]
  conv =>
    lhs
    unfold replaceAllF
  rw [if_neg (by rw [hst]; rintro ⟨h, -⟩; exact absurd h (by simp))]

/-- A well-formed placeholder starts with the marker. -/
theorem wellFormedPh_mark (ph : Text) (h : wellFormedPh ph = true) :
    isStart phMark ph = true := by
  unfold wellFormedPh at h
  rw [Bool.and_eq_true] at h
  exact h.1

/-- A well-formed placeholder has a bracket-free body. -/
theorem wellFormedPh_body (ph : Text) (h : wellFormedPh ph = true) :
    ∀ c ∈ ph.drop phMark.length, c ≠ '[' := by
  unfold wellFormedPh at h
  rw [Bool.and_eq_true] at h
  intro c hc
  simpa using List.all_eq_true.mp h.2 c hc

/-- A bracket-free pattern that starts the decomposed text also starts
the original: substitution sites all open with a bracket, so such a
pattern cannot reach into one. -/
theorem decomp_isStart_lift (M : List (Text × Text))
    (hwf : ∀ e ∈ M, wellFormedPh e.1 = true) :
    ∀ T y, Decomp M T y → ∀ pat, (∀ c ∈ pat, c ≠ '[') →
      isStart pat T = true → isStart pat y = true := by
  intro T y hd
  induction hd with
  | nil =>
    intro pat _ h
    cases pat with
    | nil => rfl
    | cons q ps => simp [isStart] at h
  | lit c S x _ _ ih =>
    intro pat hpat h
    cases pat with
    | nil => rfl
    | cons q ps =>
      obtain ⟨rest, hr, h2⟩ := (isStart_cons_iff q ps _).mp h
      injection hr with h3 h4
      subst h3
      subst h4
      exact (isStart_cons_iff c ps _).mpr
        ⟨x, rfl, ih ps (fun d hdm => hpat d (by simp [hdm])) h2⟩
  | ent ph v S x hmem _ _ =>
    intro pat hpat h
    cases pat with
    | nil => rfl
    | cons q ps =>
      have hphmark : isStart phMark ph = true := wellFormedPh_mark ph (hwf _ hmem)
      obtain ⟨r, hr, -⟩ :=
        (isStart_cons_iff '[' markTail ph).mp (by rw [← phMark_eq]; exact hphmark)
      rw [hr] at h
      obtain ⟨rest2, hr2, -⟩ := (isStart_cons_iff q ps _).mp h
      rw [List.cons_append] at hr2
      injection hr2 with h5 h6
      exact absurd h5.symm (hpat q (by simp))

/-- Material of the original text can be prepended to both sides of a
decomposition, provided the result stays free of the marker. -/
theorem decomp_prepend_chunk (M : List (Text × Text))
    (hwf : ∀ e ∈ M, wellFormedPh e.1 = true) :
    ∀ w T y, Decomp M T y → hasSub (w ++ y) phMark = false →
      Decomp M (w ++ T) (w ++ y) := by
  intro w
  induction w with
  | nil => intro T y hd _; exact hd
  | cons c w' ih =>
    intro T y hd hsub
    rw [List.cons_append] at hsub
    have hsub' : hasSub (w' ++ y) phMark = false :=
      (hasSub_tail_false c (w' ++ y) phMark hsub).2
    have hd' := ih T y hd hsub'
    rw [List.cons_append, List.cons_append]
    refine Decomp.lit c (w' ++ T) (w' ++ y) ?_ hd'
    cases hb : isStart phMark (c :: (w' ++ T)) with
    | false => rfl
    | true =>
      exfalso
      obtain ⟨rest, hr, htail⟩ :=
        (isStart_cons_iff '[' markTail _).mp (by rw [← phMark_eq]; exact hb)
      injection hr with hc hrest
      have hy : isStart markTail (w' ++ y) = true :=
        decomp_isStart_lift M hwf _ _ hd' markTail markTail_no_bracket
          (by rw [← hrest] at htail; exact htail)
      have hys : isStart phMark (c :: (w' ++ y)) = true := by
        rw [phMark_eq]
        exact (isStart_cons_iff _ _ _).mpr ⟨w' ++ y, by rw [hc], hy⟩
      rw [(hasSub_tail_false c (w' ++ y) phMark hsub).1] at hys
      exact Bool.false_ne_true hys

/-- `replaceAll` passes over a chunk that offers no match site: no match
at its start, and its interior cannot start the bracket-headed pattern. -/
theorem replaceAll_skip (ph₀ v₀ : Text) (hhead : ∃ r, ph₀ = '[' :: r) :
    ∀ w T, isStart ph₀ (w ++ T) = false → (∀ c ∈ w.drop 1, c ≠ '[') →
      replaceAll (w ++ T) ph₀ v₀ = w ++ replaceAll T ph₀ v₀ := by
  intro w
  induction w with
  | nil => intro T _ _; rfl
  | cons c w' ih =>
    intro T h0 htail
    rw [List.cons_append,
      replaceAll_neg _ _ _ _ (by rw [← List.cons_append]; exact h0),
      List.cons_append]
    congr 1
    cases w' with
    | nil => rfl
    | cons c' w'' =>
      apply ih
      · obtain ⟨r, rfl⟩ := hhead
        cases hb : isStart ('[' :: r) ((c' :: w'') ++ T) with
        | false => rfl
        | true =>
          exfalso
          obtain ⟨rest, hr, hu⟩ := (isStart_cons_iff _ _ _).mp hb
          rw [List.cons_append] at hr
          injection hr with h1 h2x
          exact absurd h1 (htail c' (by simp))
      · intro d hdm
        simp only [List.drop_succ_cons, List.drop_zero] at hdm
        exact htail d (by simp [hdm])

/-- Replacing the first mapping entry everywhere turns a decomposition
over the whole list into one over the remaining entries. -/
theorem decomp_fold_step (ph₀ v₀ : Text) (Rr : List (Text × Text))
    (hwf : ∀ e ∈ (ph₀, v₀) :: Rr, wellFormedPh e.1 = true)
    (hpair : ∀ f ∈ Rr, noStartPair ph₀ f.1 = true) :
    ∀ S x, Decomp ((ph₀, v₀) :: Rr) S x → hasSub x phMark = false →
      Decomp Rr (replaceAll S ph₀ v₀) x := by
  have hwf0 : wellFormedPh ph₀ = true := hwf _ (List.mem_cons_self _ _)
  have hph0mark : isStart phMark ph₀ = true := wellFormedPh_mark ph₀ hwf0
  have hph0ne : ph₀ ≠ [] := by
    intro h
    rw [h, phMark_eq] at hph0mark
    simp [isStart] at hph0mark
  have hwfR : ∀ e ∈ Rr, wellFormedPh e.1 = true :=
    fun e he => hwf e (List.mem_cons_of_mem _ he)
  intro S x hd
  induction hd with
  | nil =>
    intro _
    rw [show replaceAll [] ph₀ v₀ = [] from rfl]
    exact Decomp.nil
  | lit c S₀ x₀ hlit hd ih =>
    intro hx
    have hx₀ : hasSub x₀ phMark = false := (hasSub_tail_false c x₀ phMark hx).2
    have ihd := ih hx₀
    have hnost : isStart ph₀ (c :: S₀) = false := by
      cases hb : isStart ph₀ (c :: S₀) with
      | false => rfl
      | true =>
        have := isStart_weaken phMark ph₀ _ hph0mark hb
        rw [hlit] at this
        exact absurd this Bool.false_ne_true
    rw [replaceAll_neg c S₀ ph₀ v₀ hnost]
    refine Decomp.lit c _ _ ?_ ihd
    cases hb : isStart phMark (c :: replaceAll S₀ ph₀ v₀) with
    | false => rfl
    | true =>
      exfalso
      obtain ⟨rest, hr, htail⟩ :=
        (isStart_cons_iff '[' markTail _).mp (by rw [← phMark_eq]; exact hb)
      injection hr with hc hrest
      have hy : isStart markTail x₀ = true :=
        decomp_isStart_lift Rr hwfR _ _ ihd markTail markTail_no_bracket
          (by rw [← hrest] at htail; exact htail)
      have hys : isStart phMark (c :: x₀) = true := by
        rw [phMark_eq]
        exact (isStart_cons_iff _ _ _).mpr ⟨x₀, by rw [hc], hy⟩
      rw [(hasSub_tail_false c x₀ phMark hx).1] at hys
      exact Bool.false_ne_true hys
  | ent ph v S₀ x₀ hmem hd ih =>
    intro hx
    have hx₀ : hasSub x₀ phMark = false := hasSub_append_false v x₀ phMark hx
    have ihd := ih hx₀
    rcases List.mem_cons.mp hmem with heq | hmemR
    · injection heq with h1 h2
      subst h1
      subst h2
      rw [replaceAll_pos _ _ _ hph0ne (isStart_append_self ph S₀), List.drop_left]
      exact decomp_prepend_chunk Rr hwfR v _ _ ihd hx
    · have hwfph : wellFormedPh ph = true := hwfR _ hmemR
      have hphmark : isStart phMark ph = true := wellFormedPh_mark ph hwfph
      have hnpair : noStartPair ph₀ ph = true := hpair _ hmemR
      have hnp1 : isStart ph₀ ph = false := by
        have := hnpair
        unfold noStartPair at this
        rw [Bool.and_eq_true] at this
        simpa using this.1
      have hnp2 : isStart ph ph₀ = false := by
        have := hnpair
        unfold noStartPair at this
        rw [Bool.and_eq_true] at this
        simpa using this.2
      have h0 : isStart ph₀ (ph ++ S₀) = false := by
        cases hb : isStart ph₀ (ph ++ S₀) with
        | false => rfl
        | true =>
          exfalso
          rcases isStart_append_cases ph ph₀ S₀ hb with h | h
          · rw [hnp1] at h; exact Bool.false_ne_true h
          · rw [hnp2] at h; exact Bool.false_ne_true h
      have htail : ∀ c ∈ ph.drop 1, c ≠ '[' := by
        have hphe : ph = phMark ++ ph.drop phMark.length :=
          isStart_eq_append phMark ph hphmark
        intro d hdm
        rw [hphe, phMark_eq, List.cons_append, List.drop_succ_cons,
          List.drop_zero] at hdm
        rcases List.mem_append.mp hdm with h | h
        · exact markTail_no_bracket d h
        · exact wellFormedPh_body ph hwfph d h
      have hhead : ∃ r, ph₀ = '[' :: r := by
        obtain ⟨rest, hr, hu⟩ :=
          (isStart_cons_iff '[' markTail ph₀).mp (by rw [← phMark_eq]; exact hph0mark)
        exact ⟨rest, hr⟩
      rw [replaceAll_skip ph₀ v₀ hhead ph S₀ h0 htail]
      exact Decomp.ent ph v _ _ hmemR ihd

/-- A decomposition with no entries is the identity. -/
theorem decomp_nil_eq : ∀ S x : Text, Decomp [] S x → S = x := by
  intro S x hd
  induction hd with
  | nil => rfl
  | lit c S x _ _ ih => rw [ih]
  | ent ph v S x hmem _ _ => exact absurd hmem (List.not_mem_nil _)

/-- Folding `replaceAll` over the mapping entries restores the original
text of a clean decomposition. -/
theorem decomp_fold : ∀ (M : List (Text × Text)),
    (∀ e ∈ M, wellFormedPh e.1 = true) → pairwiseNoStart M = true →
    ∀ S x, Decomp M S x → hasSub x phMark = false →
      M.foldl (fun t e => replaceAll t e.1 e.2) S = x := by
  intro M
  induction M with
  | nil =>
    intro _ _ S x hd _
    simpa using decomp_nil_eq S x hd
  | cons e Rr ih =>
    intro hwf hpair S x hd hx
    obtain ⟨ph₀, v₀⟩ := e
    simp only [List.foldl_cons]
    have hpair1 : ∀ f ∈ Rr, noStartPair ph₀ f.1 = true := by
      have h1 : Rr.all (fun f => noStartPair ph₀ f.1) = true := by
        have := hpair
        unfold pairwiseNoStart at this
        rw [Bool.and_eq_true] at this
        exact this.1
      exact fun f hf => List.all_eq_true.mp h1 f hf
    have hpair2 : pairwiseNoStart Rr = true := by
      have := hpair
      unfold pairwiseNoStart at this
      rw [Bool.and_eq_true] at this
      exact this.2
    have hstep := decomp_fold_step ph₀ v₀ Rr hwf hpair1 S x hd hx
    exact ih (fun f hf => hwf f (List.mem_cons_of_mem _ hf)) hpair2 _ x hstep hx

/-- One-step unfolding of `simsubstF` at positive fuel. -/
theorem simsubstF_succ (M : List (Text × Text)) (fuel : Nat) (t : Text) :
    simsubstF M (fuel + 1) t =
      match M.find? (fun e => isStart e.1 t && e.1 ≠ []) with
      | some e => (simsubstF M fuel (t.drop e.1.length)).map (fun x => e.2 ++ x)
      | none =>
        match t with
        | [] => some []
        | c :: rest =>
          if isStart phMark t then none
          else (simsubstF M fuel rest).map (fun x => c :: x) := rfl

/-- A successful simultaneous substitution exhibits a decomposition. -/
theorem simsubstF_decomp (M : List (Text × Text)) :
    ∀ (fuel : Nat) (S x : Text), S.length ≤ fuel →
      simsubstF M fuel S = some x → Decomp M S x := by
  intro fuel
  induction fuel with
  | zero =>
    intro S x hlen hs
    have hS : S = [] := List.length_eq_zero.mp (Nat.le_zero.mp hlen)
    subst hS
    simp [simsubstF] at hs
    subst hs
    exact Decomp.nil
  | succ n ih =>
    intro S x hlen hs
    rw [simsubstF_succ] at hs
    cases hfind : M.find? (fun e => isStart e.1 S && e.1 ≠ []) with
    | some e =>
      simp only [hfind] at hs
      obtain ⟨x₀, hx₀, hxe⟩ := Option.map_eq_some'.mp hs
      have hprop := List.find?_some hfind
      rw [Bool.and_eq_true] at hprop
      have hstart : isStart e.1 S = true := hprop.1
      have hne : e.1 ≠ [] := by simpa using hprop.2
      have hmem := List.mem_of_find?_eq_some hfind
      have h1le : 1 ≤ e.1.length := by
        cases he : e.1 with
        | nil => exact absurd he hne
        | cons _ _ => simp
      have hlen' : (S.drop e.1.length).length ≤ n := by
        simp only [List.length_drop]
        omega
      have hd₀ := ih _ x₀ hlen' hx₀
      rw [← hxe, isStart_eq_append e.1 S hstart]
      exact Decomp.ent e.1 e.2 _ _ (by simpa using hmem) hd₀
    | none =>
      simp only [hfind] at hs
      cases S with
      | nil =>
        simp at hs
        subst hs
        exact Decomp.nil
      | cons c rest =>
        have hs2 : (if isStart phMark (c :: rest) = true then (none : Option Text)
            else (simsubstF M n rest).map (fun x => c :: x)) = some x := hs
        by_cases hmk : isStart phMark (c :: rest) = true
        · rw [if_pos hmk] at hs2
          exact absurd hs2 (by simp)
        · rw [if_neg hmk] at hs2
          obtain ⟨x₀, hx₀, hxe⟩ := Option.map_eq_some'.mp hs2
          rw [← hxe]
          refine Decomp.lit c rest x₀ (by simpa using hmk) ?_
          exact ih rest x₀ (by simp only [List.length_cons] at hlen; omega) hx₀

/-- Lookup at a matching head. -/
theorem storeGet_cons_pos (a : String × RedactionRecord) (s : RedactionStore)
    (p : String) (h : a.1 = p) : storeGet (a :: s) p = some a.2 := by
  unfold storeGet
  rw [List.find?_cons]
  simp [h]

/-- Lookup skips a non-matching head. -/
theorem storeGet_cons_neg (a : String × RedactionRecord) (s : RedactionStore)
    (p : String) (h : ¬ a.1 = p) : storeGet (a :: s) p = storeGet s p := by
  unfold storeGet
  rw [List.find?_cons]
  simp [h]

/-- The find-any test skips a non-matching head. -/
theorem findKey_cons_neg (a : String × RedactionRecord) (s : RedactionStore)
    (p : String) (h : ¬ a.1 = p) :
    ((a :: s).find? (fun e => e.1 = p)).isSome =
      (s.find? (fun e => e.1 = p)).isSome := by
  rw [List.find?_cons]
  simp [h]

/-- Setting a key makes it retrievable. -/
theorem storeGet_storeSet (s : RedactionStore) (p : String) (r : RedactionRecord) :
    storeGet (storeSet s p r) p = some r := by
  induction s with
  | nil =>
    unfold storeSet
    rw [if_neg (by simp)]
    exact storeGet_cons_pos (p, r) [] p rfl
  | cons a s ih =>
    unfold storeSet at *
    by_cases hap : a.1 = p
    · rw [if_pos (by rw [List.find?_cons]; simp [hap])]
      simp only [List.map_cons, if_pos hap]
      exact storeGet_cons_pos (p, r) _ p rfl
    · rw [show ((a :: s).find? (fun e => e.1 = p)) = s.find? (fun e => e.1 = p) by
        rw [List.find?_cons]; simp [hap]]
      by_cases hex : (s.find? (fun e => e.1 = p)).isSome = true
      · rw [if_pos hex]
        simp only [List.map_cons, if_neg hap]
        rw [storeGet_cons_neg a _ p hap]
        rw [if_pos hex] at ih
        exact ih
      · rw [if_neg hex]
        rw [List.cons_append, storeGet_cons_neg a _ p hap]
        rw [if_neg hex] at ih
        exact ih

/-- Pruning at a time before the record's expiry keeps it retrievable. -/
theorem storeGet_prune_live (s : RedactionStore) (p : String)
    (r : RedactionRecord) (later : Nat) (h : storeGet s p = some r)
    (hl : later < r.expiresAt) :
    storeGet (pruneExpired later s) p = some r := by
  induction s with
  | nil => simp [storeGet, List.find?] at h
  | cons a s ih =>
    by_cases hap : a.1 = p
    · rw [storeGet_cons_pos a s p hap] at h
      have ha2 : a.2 = r := by injection h
      unfold pruneExpired
      rw [List.filter_cons, if_pos (by rw [ha2]; simp; omega)]
      rw [storeGet_cons_pos a _ p hap, ha2]
    · rw [storeGet_cons_neg a s p hap] at h
      have ihs := ih h
      unfold pruneExpired at *
      rw [List.filter_cons]
      by_cases hkeep : (!(0 < a.2.expiresAt && a.2.expiresAt ≤ later)) = true
      · rw [if_pos hkeep, storeGet_cons_neg a _ p hap]
        exact ihs
      · rw [if_neg hkeep]
        exact ihs

/-- C6 (amended): rehydration is a left inverse of sanitization for a
proposal id before the record expires, provided the sanitization was
clean: the input contains no placeholder marker, every recorded
placeholder is of the minted shape and none starts another, and the
sanitized text simultaneously substitutes back to the input.  Inputs
that violate cleanliness — a marker already in the input, or a nested
redaction whose recorded value captured a placeholder — instead make
rehydration raise the unresolved-placeholder error (counterexample). -/
theorem c6_roundtrip_clean (x : Text) (p : String) (store : RedactionStore)
    (now later : Nat) (res : SanitizeResult) (store1 : RedactionStore)
    (rec : RedactionRecord)
    (hp : p ≠ "")
    (hsan : sanitizeForLLM x p store now = (Except.ok res, store1))
    (hrec : storeGet store1 p = some rec)
    (hlater : later < now + DEFAULT_TTL_MS)
    (hx : hasSub x phMark = false)
    (hwf : ∀ e ∈ rec.mappings, wellFormedPh e.1 = true)
    (hpair : pairwiseNoStart rec.mappings = true)
    (hsim : simsubst rec.mappings res.text = some x) :
    (rehydrateFromLLM res.text p store1 later).1 = Except.ok x := by
  unfold sanitizeForLLM at hsan
  rw [if_neg hp] at hsan
  have hstore := congrArg Prod.snd hsan
  simp only at hstore
  have hrec2 := hrec
  rw [← hstore, storeGet_storeSet] at hrec2
  have hexp : rec.expiresAt = now + DEFAULT_TTL_MS := by
    injection hrec2 with h1
    rw [← h1]
  have hrecl : storeGet (pruneExpired later store1) p = some rec :=
    storeGet_prune_live store1 p rec later hrec (by rw [hexp]; exact hlater)
  unfold rehydrateFromLLM
  rw [if_neg hp]
  simp only [hrecl]
  have hd : Decomp rec.mappings res.text x := by
    unfold simsubst at hsim
    exact simsubstF_decomp rec.mappings res.text.length res.text x (le_refl _) hsim
  have hfold : rec.mappings.foldl (fun t e => replaceAll t e.1 e.2) res.text = x :=
    decomp_fold rec.mappings hwf hpair res.text x hd hx
  rw [hfold]
  rw [if_neg (by rw [hx]; exact Bool.false_ne_true)]

/-- Witness for C6 on the spec §8 scenario input: two placeholders of
distinct categories are minted and rehydration before expiry restores
the exact original string. -/
theorem c6_roundtrip_clean_witness :
    (rehydrateFromLLM ("token [REDACTED_TOKEN_1] [REDACTED_EMAIL_1]".toList) "p1"
        (sanitizeForLLM
          ("token sk-ABCDEFGHIJKLMNOPQRSTUVWX user@example.com".toList)
          "p1" [] 0).2 5).1 =
      Except.ok ("token sk-ABCDEFGHIJKLMNOPQRSTUVWX user@example.com".toList) :=
  c6_roundtrip_clean
    ("token sk-ABCDEFGHIJKLMNOPQRSTUVWX user@example.com".toList) "p1" [] 0 5
    { text := "token [REDACTED_TOKEN_1] [REDACTED_EMAIL_1]".toList,
      redactionsApplied := 2 }
    (sanitizeForLLM
      ("token sk-ABCDEFGHIJKLMNOPQRSTUVWX user@example.com".toList) "p1" [] 0).2
    { mappings :=
        [("[REDACTED_TOKEN_1]".toList, "sk-ABCDEFGHIJKLMNOPQRSTUVWX".toList),
         ("[REDACTED_EMAIL_1]".toList, "user@example.com".toList)],
      counters := [("TOKEN", 1), ("EMAIL", 1)], expiresAt := 600000 }
    (by decide) (by decide) (by decide) (by decide) (by decide) (by decide)
    (by decide) (by decide)

end Argus
